import Mathlib

/-!
Verification development for the family-tree layout engine
(`src/frontend/src/utils/layoutEngine.ts`).

The engine is a pure function from a focused person id and a person graph to a
`LayoutResult` (positioned nodes, connections, bounding box).  We embed the
TypeScript source shallowly:

* JavaScript numbers: every quantity the engine manipulates is an integer
  (pixel widths from `calculateNodeWidth`) or an integer divided by powers of
  two (centers obtained through `/ 2`).  Such dyadic rationals are exact in
  IEEE doubles at these magnitudes, so we model coordinates by `ℚ` and the
  integer widths by `ℕ`; all arithmetic in the source is exact and matches.
* `Record<string, Person>` keyed by person id: a `List Person`, looked up by
  the `id` field (the data-model invariant is key = person.id; a JS record
  cannot hold two entries under one key).  `Object.values` iteration order is
  the list order.
* Mutable `Set<string>` used only through `has`/`add`: a `List String` used
  through membership.
* The mutable closure state of `computeLayout` (`nodes`, `connections`,
  `positioned`): an explicit `LayoutState` record threaded through the
  (formerly closure) functions, which receive the captured `people` and
  `focusedPersonId` as parameters.
* The recursions of the source increase a depth counter toward a constant
  bound (`currentDepth` toward `maxDepth`, `depth` toward
  `MAX_LAYERS_DOWN`/`MAX_LAYERS_UP`).  We pass the equivalent decreasing
  quantity `remaining` (= bound - depth) so the recursion is structural and
  kernel-computable; the top-level wrappers restore the source signatures.
-/

namespace FamilyTreeLayout

/-- Gender is a closed two-value enumeration (`'male' | 'female'`). -/
inductive Gender where
  | male
  | female
deriving DecidableEq, Repr

/-- Person record (`src/backend/src/types/index.ts` / frontend mirror).
`birthYear`, `alive`, `imageUrl` are display-only and never read by the
layout engine; `imageUrl` is omitted, the others kept for fidelity. -/
structure Person where
  id : String
  name : String
  gender : Gender
  spouseId : Option String := none
  childrenIds : List String := []
  birthYear : Option Int := none
  alive : Option Bool := none
deriving DecidableEq, Repr

/-- The slice of `FamilyTree` consumed by the layout engine: the people map.
Modeled as a list of persons keyed by their `id` field. -/
structure FamilyTree where
  people : List Person
deriving DecidableEq, Repr

/-- Lookup `people[pid]`: first person whose id is `pid`. -/
def lookupPerson (people : List Person) (pid : String) : Option Person :=
  people.find? (fun p => p.id = pid)

namespace CONFIG

def MIN_NODE_WIDTH : Nat := 140
def MAX_NODE_WIDTH : Nat := 220
def NODE_HEIGHT : Nat := 90
def CHAR_WIDTH : Nat := 8
def PADDING : Nat := 60
def HORIZONTAL_GAP : Nat := 60
def VERTICAL_GAP : Nat := 130
def SPOUSE_GAP : Nat := 20
def MAX_LAYERS_UP : Nat := 4
def MAX_LAYERS_DOWN : Nat := 4

end CONFIG

/-- Dynamic node width from the name length
(`Math.max(MIN, Math.min(MAX, name.length * CHAR_WIDTH + PADDING))`). -/
def calculateNodeWidth (name : String) : Nat :=
  let textWidth := name.length * CONFIG.CHAR_WIDTH + CONFIG.PADDING
  max CONFIG.MIN_NODE_WIDTH (min CONFIG.MAX_NODE_WIDTH textWidth)

/-- Width for a couple: both widths plus `SPOUSE_GAP`, or the single width. -/
def calculateCoupleWidth (person : Person) (spouse : Option Person) : Nat :=
  match spouse with
  | some s => calculateNodeWidth person.name + calculateNodeWidth s.name + CONFIG.SPOUSE_GAP
  | none => calculateNodeWidth person.name

/-- Linear scan for parents: persons listing `personId` among their children,
skipping a person whose spouse is already collected. -/
def findParents (personId : String) (people : List Person) : List Person :=
  people.foldl
    (fun parents person =>
      if personId ∈ person.childrenIds then
        if parents.any (fun p => p.spouseId == some person.id) then parents
        else parents ++ [person]
      else parents)
    []

/-- Spouse lookup.  The source guards with JS truthiness
(`person.spouseId && people[person.spouseId]`), so an empty-string spouse id
is treated as absent. -/
def getSpouse (person : Person) (people : List Person) : Option Person :=
  match person.spouseId with
  | some sid => if sid ≠ "" then lookupPerson people sid else none
  | none => none

/-- Sum of a list of widths with a gap inserted between consecutive entries
(the `childrenWidth` accumulation loop of `calculateSubtreeWidth` and the
`totalWidth` formula of `positionDescendants`). -/
def sumWithGaps (gap : Nat) : List Nat → Nat
  | [] => 0
  | [w] => w
  | w :: ws => w + gap + sumWithGaps gap ws

/-- Core of `calculateSubtreeWidth`, with the depth counters replaced by the
single decreasing quantity `remaining = maxDepth - currentDepth` so the
recursion is structural.  `remaining = 0` is the `currentDepth >= maxDepth`
limit; the recursive child calls of the source happen only when
`currentDepth < maxDepth` and pass `currentDepth + 1`, i.e. `remaining - 1`.
Each child receives an independent copy of the branch's visited set: in the
source a fresh `Set` copy per child, here the unchanged pure list. -/
def cswGo (people : List Person) : Nat → String → List String → Nat
  | remaining, personId, visited =>
    if personId ∈ visited then 0
    else
      let visited := personId :: visited
      match lookupPerson people personId with
      | none => 0
      | some person =>
        let spouse := getSpouse person people
        let visited :=
          match spouse with
          | some s => s.id :: visited
          | none => visited
        let coupleWidth := calculateCoupleWidth person spouse
        match remaining with
        | 0 => coupleWidth
        | remaining + 1 =>
          if person.childrenIds = [] then coupleWidth
          else
            let validChildren := person.childrenIds.filter
              (fun cid => (lookupPerson people cid).isSome && !(decide (cid ∈ visited)))
            let childrenWidth :=
              sumWithGaps CONFIG.HORIZONTAL_GAP
                (validChildren.map (fun cid => cswGo people remaining cid visited))
            max coupleWidth childrenWidth

/-- `calculateSubtreeWidth(personId, people, maxDepth, currentDepth, visited)`.
The source returns 0 outright when `currentDepth > maxDepth`; otherwise it
behaves as `cswGo` at `remaining = maxDepth - currentDepth`. -/
def calculateSubtreeWidth (people : List Person) (maxDepth currentDepth : Nat)
    (personId : String) (visited : List String) : Nat :=
  if currentDepth > maxDepth then 0
  else cswGo people (maxDepth - currentDepth) personId visited

/-- Connection type tag (`'spouse' | 'parent-child'`). -/
inductive ConnectionType where
  | spouse
  | parentChild
deriving DecidableEq, Repr

/-- A 2-D point. -/
structure Point where
  x : ℚ
  y : ℚ
deriving DecidableEq, Repr

/-- Output connection record. -/
structure Connection where
  id : String
  type : ConnectionType
  «from» : Point
  «to» : Point
  fromId : String
  toId : String
deriving DecidableEq, Repr

/-- Output node record. -/
structure LayoutNode where
  person : Person
  x : ℚ
  y : ℚ
  width : Nat
  height : Nat
  isSpouse : Bool
  isChild : Bool
  isParent : Bool
  isFocused : Bool
  generation : Int
deriving DecidableEq, Repr

/-- Bounding box of the layout. -/
structure Bounds where
  minX : ℚ
  maxX : ℚ
  minY : ℚ
  maxY : ℚ
  width : ℚ
  height : ℚ
deriving DecidableEq, Repr

/-- Full output of `computeLayout`. -/
structure LayoutResult where
  nodes : List LayoutNode
  connections : List Connection
  bounds : Bounds
  focusedNode : Option LayoutNode
deriving DecidableEq, Repr

/-- The mutable closure state of `computeLayout`: the accumulated `nodes` and
`connections` arrays and the `positioned` id set. -/
structure LayoutState where
  nodes : List LayoutNode
  connections : List Connection
  positioned : List String
deriving DecidableEq, Repr

/-- `createNode`: a LayoutNode for `person` at the given position. -/
def createNode (focusedPersonId : String) (person : Person) (x y : ℚ)
    (generation : Int) (isSpouse isChild isParent : Bool) : LayoutNode :=
  { person := person
    x := x
    y := y
    width := calculateNodeWidth person.name
    height := CONFIG.NODE_HEIGHT
    isSpouse := isSpouse
    isChild := isChild
    isParent := isParent
    isFocused := person.id == focusedPersonId
    generation := generation }

/-- The extents returned by `positionCouple`. -/
structure CoupleExtent where
  leftX : ℚ
  rightX : ℚ
  centerX : ℚ
deriving DecidableEq, Repr

/-- The `else` (single-person) branch of `positionCouple`. -/
def positionSingle (focusedPersonId : String) (st : LayoutState) (person : Person)
    (centerX centerY : ℚ) (generation : Int) (isChild isParent : Bool) :
    CoupleExtent × LayoutState :=
  let personWidth := calculateNodeWidth person.name
  let st :=
    if person.id ∈ st.positioned then st
    else
      { st with
        nodes := st.nodes ++
          [createNode focusedPersonId person centerX centerY generation false isChild isParent]
        positioned := person.id :: st.positioned }
  (⟨centerX - (personWidth : ℚ) / 2, centerX + (personWidth : ℚ) / 2, centerX⟩, st)

/-- The couple branch of `positionCouple`: place the already-ordered left and
right partners around `centerX` inside `totalWidth`, skipping members already
positioned, and emit the spouse connection. -/
def positionPair (focusedPersonId : String) (st : LayoutState)
    (leftPerson rightPerson : Person) (totalWidth : Nat) (centerX centerY : ℚ)
    (generation : Int) (isChild isParent : Bool) : CoupleExtent × LayoutState :=
  let leftWidth := calculateNodeWidth leftPerson.name
  let rightWidth := calculateNodeWidth rightPerson.name
  let leftX : ℚ := centerX - (totalWidth : ℚ) / 2 + (leftWidth : ℚ) / 2
  let rightX : ℚ := centerX + (totalWidth : ℚ) / 2 - (rightWidth : ℚ) / 2
  let st :=
    if leftPerson.id ∈ st.positioned then st
    else
      { st with
        nodes := st.nodes ++
          [createNode focusedPersonId leftPerson leftX centerY generation
            (leftPerson.id != focusedPersonId) isChild isParent]
        positioned := leftPerson.id :: st.positioned }
  let st :=
    if rightPerson.id ∈ st.positioned then st
    else
      { st with
        nodes := st.nodes ++
          [createNode focusedPersonId rightPerson rightX centerY generation
            (rightPerson.id != focusedPersonId) isChild isParent]
        positioned := rightPerson.id :: st.positioned }
  let st :=
    { st with
      connections := st.connections ++
        [{ id := "spouse-" ++ leftPerson.id ++ "-" ++ rightPerson.id
           type := ConnectionType.spouse
           «from» := ⟨leftX + (leftWidth : ℚ) / 2, centerY⟩
           «to» := ⟨rightX - (rightWidth : ℚ) / 2, centerY⟩
           fromId := leftPerson.id
           toId := rightPerson.id }] }
  (⟨leftX - (leftWidth : ℚ) / 2, rightX + (rightWidth : ℚ) / 2, centerX⟩, st)

/-- `positionCouple`: place a person and (if unplaced) their spouse side by
side around `centerX`, gendered left/right, and emit the spouse connection. -/
def positionCouple (people : List Person) (focusedPersonId : String) (st : LayoutState)
    (person : Person) (centerX centerY : ℚ) (generation : Int)
    (isChild isParent : Bool) : CoupleExtent × LayoutState :=
  let spouse := getSpouse person people
  match spouse with
  | none => positionSingle focusedPersonId st person centerX centerY generation isChild isParent
  | some sp =>
    if sp.id ∈ st.positioned then
      positionSingle focusedPersonId st person centerX centerY generation isChild isParent
    else
      let personWidth := calculateNodeWidth person.name
      let spouseWidth := calculateNodeWidth sp.name
      let totalWidth := personWidth + spouseWidth + CONFIG.SPOUSE_GAP
      let maleOnLeft := person.gender == Gender.male
      let leftPerson := if maleOnLeft then person else sp
      let rightPerson := if maleOnLeft then sp else person
      positionPair focusedPersonId st leftPerson rightPerson totalWidth centerX centerY
        generation isChild isParent

/-- The children considered by `positionDescendants`: resolvable entries of
`childrenIds`, in order, that are not yet positioned. -/
def pdChildren (people : List Person) (parentPerson : Person)
    (positioned : List String) : List Person :=
  (parentPerson.childrenIds.filterMap (lookupPerson people)).filter
    (fun c => !(decide (c.id ∈ positioned)))

/-- The reserved slice width for one child: its estimated subtree width
floored at its own couple width.  The source computes `childWidths` and
`adjustedWidths` in two successive passes over the same `children` array;
the passes are fused here into one per-child expression. -/
def pdAdjusted (people : List Person) (remaining : Nat) (positioned : List String)
    (child : Person) : Nat :=
  max (calculateSubtreeWidth people remaining 0 child.id positioned)
    (calculateCoupleWidth child (getSpouse child people))

/-- The body of the `positionDescendants` `for` loop, as a fold step over the
`(child, adjustedWidth)` pairs with accumulator `(state, currentX)`.  The
recursion into grandchildren is abstracted as `recurse`. -/
def pdStep (people : List Person) (focusedPersonId : String) (parentPerson : Person)
    (parentCenterX parentY childY : ℚ) (generation : Int)
    (recurse : LayoutState → Person → ℚ → ℚ → Int → LayoutState)
    (acc : LayoutState × ℚ) (cw : Person × Nat) : LayoutState × ℚ :=
  let child := cw.1
  let childWidth := cw.2
  let st := acc.1
  let currentX := acc.2
  let childCenterX := currentX + (childWidth : ℚ) / 2
  let pcr := positionCouple people focusedPersonId st child childCenterX childY
    (generation + 1) true false
  let result := pcr.1
  let st := pcr.2
  let st :=
    match st.nodes.find? (fun n => n.person.id == child.id) with
    | some childNode =>
      { st with
        connections := st.connections ++
          [{ id := "parent-child-" ++ parentPerson.id ++ "-" ++ child.id
             type := ConnectionType.parentChild
             «from» := ⟨parentCenterX, parentY + (CONFIG.NODE_HEIGHT : ℚ) / 2⟩
             «to» := ⟨childNode.x, childY - (CONFIG.NODE_HEIGHT : ℚ) / 2⟩
             fromId := parentPerson.id
             toId := child.id }] }
    | none => st
  let st := recurse st child result.centerX childY (generation + 1)
  (st, currentX + (childWidth : ℚ) + (CONFIG.HORIZONTAL_GAP : ℚ))

/-- `positionDescendants`: place children strictly below their parent couple,
each centered in a reserved slice, recursing depth-first.  `remaining` is
`MAX_LAYERS_DOWN - depth` (the source guard `depth >= MAX_LAYERS_DOWN` is
`remaining = 0`, and the child estimate depth `MAX_LAYERS_DOWN - depth - 1`
is `remaining - 1`). -/
def positionDescendants (people : List Person) (focusedPersonId : String) :
    Nat → LayoutState → Person → ℚ → ℚ → Int → LayoutState
  | 0, st, _, _, _, _ => st
  | remaining + 1, st, parentPerson, parentCenterX, parentY, generation =>
    let children := pdChildren people parentPerson st.positioned
    if children = [] then st
    else
      let childY := parentY + (CONFIG.VERTICAL_GAP : ℚ) + (CONFIG.NODE_HEIGHT : ℚ)
      let adjustedWidths := children.map (pdAdjusted people remaining st.positioned)
      let totalWidth := adjustedWidths.sum + (children.length - 1) * CONFIG.HORIZONTAL_GAP
      ((children.zip adjustedWidths).foldl
        (pdStep people focusedPersonId parentPerson parentCenterX parentY childY generation
          (fun st child cX cY g => positionDescendants people focusedPersonId remaining
            st child cX cY g))
        (st, parentCenterX - (totalWidth : ℚ) / 2)).1

/-- The total width `positionDescendants` reserves for the child row (0 when
the depth limit is reached or no child is placeable).  Used to bound the
horizontal extent of everything the recursion emits. -/
def pdBound (people : List Person) : Nat → Person → List String → Nat
  | 0, _, _ => 0
  | remaining + 1, parentPerson, positioned =>
    let children := pdChildren people parentPerson positioned
    if children = [] then 0
    else
      (children.map (pdAdjusted people remaining positioned)).sum +
        (children.length - 1) * CONFIG.HORIZONTAL_GAP

/-- The `positionDescendants` child loop as a standalone function of the
remaining `(child, width)` pairs and the `(state, currentX)` accumulator;
definitionally equal to the fold inside `positionDescendants`. -/
def pdFold (people : List Person) (focusedPersonId : String) (p : Person)
    (cX y childY : ℚ) (g : Int) (r : Nat) (l : List (Person × Nat))
    (stc : LayoutState) (curX : ℚ) : LayoutState :=
  (l.foldl (pdStep people focusedPersonId p cX y childY g
      (fun s c ccX ccY gg => positionDescendants people focusedPersonId r s c ccX ccY gg))
    (stc, curX)).1

/-- Reserved slice width of a child, indexed by id (0 when unresolvable);
a proof-side reindexing of `pdAdjusted` along `lookupPerson`. -/
def childSliceWidth (people : List Person) (r : Nat) (P : List String)
    (cid : String) : Nat :=
  match lookupPerson people cid with
  | some q => pdAdjusted people r P q
  | none => 0

/-- `positionAncestors`: place one ancestor lineage above the focus path. -/
def positionAncestors (people : List Person) (focusedPersonId : String) :
    Nat → LayoutState → String → ℚ → ℚ → Int → LayoutState
  | 0, st, _, _, _, _ => st
  | remaining + 1, st, personId, personCenterX, personY, generation =>
    let parents := (findParents personId people).filter
      (fun p => !(decide (p.id ∈ st.positioned)))
    match parents with
    | [] => st
    | parent :: _ =>
      let parentY := personY - (CONFIG.VERTICAL_GAP : ℚ) - (CONFIG.NODE_HEIGHT : ℚ)
      let pcr := positionCouple people focusedPersonId st parent personCenterX parentY
        (generation - 1) false true
      let result := pcr.1
      let st := pcr.2
      let st :=
        match st.nodes.find? (fun n => n.person.id == personId) with
        | some childNode =>
          { st with
            connections := st.connections ++
              [{ id := "parent-child-" ++ parent.id ++ "-" ++ personId
                 type := ConnectionType.parentChild
                 «from» := ⟨result.centerX, parentY + (CONFIG.NODE_HEIGHT : ℚ) / 2⟩
                 «to» := ⟨childNode.x, personY - (CONFIG.NODE_HEIGHT : ℚ) / 2⟩
                 fromId := parent.id
                 toId := personId }] }
        | none => st
      positionAncestors people focusedPersonId remaining st parent.id result.centerX
        parentY (generation - 1)

/-- Bounding box over all node rectangles.  The source folds min/max starting
from `±Infinity` and collapses to zeros when no node was placed
(`!isFinite(minX)` holds exactly for the empty list, since every real extent
is finite); here the empty case is split off directly. -/
def computeBounds (nodes : List LayoutNode) : Bounds :=
  match nodes with
  | [] => ⟨0, 0, 0, 0, 0, 0⟩
  | n :: rest =>
    let minX := rest.foldl (fun a m => min a (m.x - (m.width : ℚ) / 2))
      (n.x - (n.width : ℚ) / 2)
    let maxX := rest.foldl (fun a m => max a (m.x + (m.width : ℚ) / 2))
      (n.x + (n.width : ℚ) / 2)
    let minY := rest.foldl (fun a m => min a (m.y - (m.height : ℚ) / 2))
      (n.y - (n.height : ℚ) / 2)
    let maxY := rest.foldl (fun a m => max a (m.y + (m.height : ℚ) / 2))
      (n.y + (n.height : ℚ) / 2)
    ⟨minX, maxX, minY, maxY, maxX - minX, maxY - minY⟩

/-- `computeLayout`: the main entry point. -/
def computeLayout (focusedPersonId : String) (familyTree : FamilyTree) : LayoutResult :=
  let people := familyTree.people
  match lookupPerson people focusedPersonId with
  | none =>
    { nodes := []
      connections := []
      bounds := ⟨0, 0, 0, 0, 0, 0⟩
      focusedNode := none }
  | some focusedPerson =>
    let st0 : LayoutState := ⟨[], [], []⟩
    let pcr := positionCouple people focusedPersonId st0 focusedPerson 0 0 0 false false
    let result := pcr.1
    let st1 := pcr.2
    let st2 := positionDescendants people focusedPersonId CONFIG.MAX_LAYERS_DOWN st1
      focusedPerson result.centerX 0 0
    let st3 := positionAncestors people focusedPersonId CONFIG.MAX_LAYERS_UP st2
      focusedPersonId result.centerX 0 0
    { nodes := st3.nodes
      connections := st3.connections
      bounds := computeBounds st3.nodes
      focusedNode := st3.nodes.find? (fun n => n.isFocused) }

/-! Specification-side definitions and concrete instances used by the claim
theorems. -/

/-- Left edge of a node's rectangle. -/
def nodeLo (n : LayoutNode) : ℚ := n.x - (n.width : ℚ) / 2

/-- Right edge of a node's rectangle. -/
def nodeHi (n : LayoutNode) : ℚ := n.x + (n.width : ℚ) / 2

/-- Horizontal extents intersect at most in a boundary point. -/
def xDisjoint (n m : LayoutNode) : Prop := nodeHi n ≤ nodeLo m ∨ nodeHi m ≤ nodeLo n

/-- Internal state invariant: emitted node ids are pairwise distinct and every
emitted node's id is recorded in the positioned set. -/
def StateInv (st : LayoutState) : Prop :=
  (st.nodes.map (fun n => n.person.id)).Nodup ∧
    ∀ n ∈ st.nodes, n.person.id ∈ st.positioned

/-- The subtree width algorithm as the specification states it: 0 on depth
overflow / revisit / unresolvable id; the couple width when there are no
children or the depth limit is reached; otherwise the maximum of the couple
width and the sum of the children's recursive widths plus
`(n-1) * HORIZONTAL_GAP`, every child call receiving an independent copy of
the branch's visited set (person and spouse added). -/
def subtreeWidthSpec (people : List Person) (maxDepth : Nat) (personId : String)
    (currentDepth : Nat) (visited : List String) : Nat :=
  if currentDepth > maxDepth ∨ personId ∈ visited then 0
  else
    match lookupPerson people personId with
    | none => 0
    | some person =>
      let spouse := getSpouse person people
      let visited' :=
        match spouse with
        | some s => s.id :: personId :: visited
        | none => personId :: visited
      let coupleWidth := calculateCoupleWidth person spouse
      if h : person.childrenIds = [] ∨ currentDepth ≥ maxDepth then coupleWidth
      else
        let validChildren := person.childrenIds.filter
          (fun cid => (lookupPerson people cid).isSome && !(decide (cid ∈ visited')))
        let ws := validChildren.attach.map
          (fun cid => subtreeWidthSpec people maxDepth cid.1 (currentDepth + 1) visited')
        max coupleWidth (ws.sum + (ws.length - 1) * CONFIG.HORIZONTAL_GAP)
termination_by maxDepth - currentDepth
decreasing_by
  simp only [not_or, not_le] at h
  omega

/-- Single-person graph of the single-person scenario. -/
def soloPerson : Person :=
  { id := "p1", name := "Alice", gender := Gender.female }

/-- The tree holding exactly `soloPerson`. -/
def soloTree : FamilyTree := ⟨[soloPerson]⟩

/-- Cyclic child graph: X lists Y as a child and Y lists X as a child. -/
def cycX : Person :=
  { id := "X", name := "Xavier", gender := Gender.male, childrenIds := ["Y"] }

/-- Second participant of the child cycle. -/
def cycY : Person :=
  { id := "Y", name := "Yvonne", gender := Gender.female, childrenIds := ["X"] }

/-- The two-person cyclic tree. -/
def cycTree : FamilyTree := ⟨[cycX, cycY]⟩

/-- Symmetric spouse pair member A; B's spouse, also claimed by C. -/
def asymA : Person :=
  { id := "A", name := "Ann", gender := Gender.female, spouseId := some "B" }

/-- Symmetric spouse pair member B. -/
def asymB : Person :=
  { id := "B", name := "Bob", gender := Gender.male, spouseId := some "A" }

/-- Third person whose `spouseId` points at A although A's points at B. -/
def asymC : Person :=
  { id := "C", name := "Cid", gender := Gender.male, spouseId := some "A" }

/-- Tree with the asymmetric third-party spouse reference. -/
def asymTree : FamilyTree := ⟨[asymC, asymA, asymB]⟩

/-- Symmetric two-person couple used as a witness instance. -/
def coupleA : Person :=
  { id := "a", name := "Adam", gender := Gender.male, spouseId := some "b" }

/-- The other member of the witness couple. -/
def coupleB : Person :=
  { id := "b", name := "Betty", gender := Gender.female, spouseId := some "a" }

/-- The witness couple's tree. -/
def coupleTree : FamilyTree := ⟨[coupleA, coupleB]⟩

/-- Whether a connection is the spouse connection joining `A` and `B`
(in either direction). -/
def spouseConnAB (A B : Person) (c : Connection) : Bool :=
  c.type == ConnectionType.spouse &&
    ((c.fromId == A.id && c.toId == B.id) || (c.fromId == B.id && c.toId == A.id))

/-- Invariant tying mutual partners `A` and `B` together through the layout
state: they are positioned together or not at all; once positioned, the state
holds their side-by-side node pair (male left when the genders differ) and
exactly one spouse connection between them; before that, no node carries
either id and no such connection exists. -/
def coupleInv (A B : Person) (st : LayoutState) : Prop :=
  (A.id ∈ st.positioned ↔ B.id ∈ st.positioned) ∧
  (A.id ∈ st.positioned →
    (∃ nA ∈ st.nodes, ∃ nB ∈ st.nodes,
      nA.person.id = A.id ∧ nB.person.id = B.id ∧ nA.y = nB.y ∧
      nA.width = calculateNodeWidth A.name ∧ nB.width = calculateNodeWidth B.name ∧
      (A.gender = Gender.male →
        nB.x - nA.x = (calculateNodeWidth A.name : ℚ) / 2 + (CONFIG.SPOUSE_GAP : ℚ) +
          (calculateNodeWidth B.name : ℚ) / 2) ∧
      (A.gender ≠ Gender.male →
        nA.x - nB.x = (calculateNodeWidth A.name : ℚ) / 2 + (CONFIG.SPOUSE_GAP : ℚ) +
          (calculateNodeWidth B.name : ℚ) / 2)) ∧
    st.connections.countP (spouseConnAB A B) = 1) ∧
  (A.id ∉ st.positioned →
    (∀ n ∈ st.nodes, n.person.id ≠ A.id ∧ n.person.id ≠ B.id) ∧
    st.connections.countP (spouseConnAB A B) = 0)

/-! ### Unfolding equations -/

theorem cswGo_succ (people : List Person) (r : Nat) (personId : String)
    (visited : List String) :
    cswGo people (r + 1) personId visited =
      (if personId ∈ visited then 0
      else
        let visited := personId :: visited
        match lookupPerson people personId with
        | none => 0
        | some person =>
          let spouse := getSpouse person people
          let visited :=
            match spouse with
            | some s => s.id :: visited
            | none => visited
          let coupleWidth := calculateCoupleWidth person spouse
          if person.childrenIds = [] then coupleWidth
          else
            let validChildren := person.childrenIds.filter
              (fun cid => (lookupPerson people cid).isSome && !(decide (cid ∈ visited)))
            let childrenWidth :=
              sumWithGaps CONFIG.HORIZONTAL_GAP
                (validChildren.map (fun cid => cswGo people r cid visited))
            max coupleWidth childrenWidth) := by
  rw [cswGo.eq_def]

theorem cswGo_zero (people : List Person) (personId : String) (visited : List String) :
    cswGo people 0 personId visited =
      (if personId ∈ visited then 0
      else
        match lookupPerson people personId with
        | none => 0
        | some person => calculateCoupleWidth person (getSpouse person people)) := by
  rw [cswGo.eq_def]

theorem positionDescendants_zero (people : List Person) (fpid : String)
    (st : LayoutState) (p : Person) (cX y : ℚ) (g : Int) :
    positionDescendants people fpid 0 st p cX y g = st := rfl

theorem positionDescendants_succ (people : List Person) (fpid : String) (r : Nat)
    (st : LayoutState) (p : Person) (cX y : ℚ) (g : Int) :
    positionDescendants people fpid (r + 1) st p cX y g =
      (let children := pdChildren people p st.positioned
      if children = [] then st
      else
        let childY := y + (CONFIG.VERTICAL_GAP : ℚ) + (CONFIG.NODE_HEIGHT : ℚ)
        let adjustedWidths := children.map (pdAdjusted people r st.positioned)
        let totalWidth := adjustedWidths.sum + (children.length - 1) * CONFIG.HORIZONTAL_GAP
        ((children.zip adjustedWidths).foldl
          (pdStep people fpid p cX y childY g
            (fun st child ccX ccY gg => positionDescendants people fpid r st child ccX ccY gg))
          (st, cX - (totalWidth : ℚ) / 2)).1) := rfl

theorem positionAncestors_zero (people : List Person) (fpid : String)
    (st : LayoutState) (pid : String) (cX y : ℚ) (g : Int) :
    positionAncestors people fpid 0 st pid cX y g = st := rfl

theorem positionAncestors_succ (people : List Person) (fpid : String) (r : Nat)
    (st : LayoutState) (personId : String) (personCenterX personY : ℚ) (generation : Int) :
    positionAncestors people fpid (r + 1) st personId personCenterX personY generation =
      (let parents := (findParents personId people).filter
        (fun p => !(decide (p.id ∈ st.positioned)))
      match parents with
      | [] => st
      | parent :: _ =>
        let parentY := personY - (CONFIG.VERTICAL_GAP : ℚ) - (CONFIG.NODE_HEIGHT : ℚ)
        let pcr := positionCouple people fpid st parent personCenterX parentY
          (generation - 1) false true
        let result := pcr.1
        let st := pcr.2
        let st :=
          match st.nodes.find? (fun n => n.person.id == personId) with
          | some childNode =>
            { st with
              connections := st.connections ++
                [{ id := "parent-child-" ++ parent.id ++ "-" ++ personId
                   type := ConnectionType.parentChild
                   «from» := ⟨result.centerX, parentY + (CONFIG.NODE_HEIGHT : ℚ) / 2⟩
                   «to» := ⟨childNode.x, personY - (CONFIG.NODE_HEIGHT : ℚ) / 2⟩
                   fromId := parent.id
                   toId := personId }] }
          | none => st
        positionAncestors people fpid r st parent.id result.centerX parentY
          (generation - 1)) := rfl

theorem pdBound_zero (people : List Person) (p : Person) (positioned : List String) :
    pdBound people 0 p positioned = 0 := rfl

theorem pdBound_succ (people : List Person) (r : Nat) (p : Person)
    (positioned : List String) :
    pdBound people (r + 1) p positioned =
      (let children := pdChildren people p positioned
      if children = [] then 0
      else
        (children.map (pdAdjusted people r positioned)).sum +
          (children.length - 1) * CONFIG.HORIZONTAL_GAP) := rfl

/-! ### Basic helper lemmas -/

theorem sumWithGaps_eq (gap : Nat) :
    ∀ l : List Nat, sumWithGaps gap l = l.sum + (l.length - 1) * gap := by
  intro l
  induction l with
  | nil => simp [sumWithGaps]
  | cons w ws ih =>
    cases ws with
    | nil => simp [sumWithGaps]
    | cons x xs =>
      simp only [sumWithGaps, ih, List.sum_cons, List.length_cons, Nat.add_sub_cancel]
      ring

theorem computeBounds_wf (nodes : List LayoutNode) :
    (computeBounds nodes).width = (computeBounds nodes).maxX - (computeBounds nodes).minX ∧
    (computeBounds nodes).height = (computeBounds nodes).maxY - (computeBounds nodes).minY := by
  cases nodes with
  | nil => simp [computeBounds]
  | cons n rest => simp [computeBounds]

/-! ### Claim C8: node width formula -/

/-- C8: `calculateNodeWidth` computes `name.length * CHAR_WIDTH + PADDING`
clamped to `[MIN_NODE_WIDTH, MAX_NODE_WIDTH]`; the one-letter name "A" gets
exactly `MIN_NODE_WIDTH`, and any name whose text width exceeds
`MAX_NODE_WIDTH` gets exactly `MAX_NODE_WIDTH`.  The function is total and
deterministic (it is a Lean function). -/
theorem claim_C8_node_width :
    (∀ name : String, calculateNodeWidth name =
      max CONFIG.MIN_NODE_WIDTH (min CONFIG.MAX_NODE_WIDTH
        (name.length * CONFIG.CHAR_WIDTH + CONFIG.PADDING))) ∧
    (∀ name : String, CONFIG.MIN_NODE_WIDTH ≤ calculateNodeWidth name ∧
      calculateNodeWidth name ≤ CONFIG.MAX_NODE_WIDTH) ∧
    calculateNodeWidth "A" = CONFIG.MIN_NODE_WIDTH ∧
    (∀ name : String,
      CONFIG.MAX_NODE_WIDTH < name.length * CONFIG.CHAR_WIDTH + CONFIG.PADDING →
      calculateNodeWidth name = CONFIG.MAX_NODE_WIDTH) := by
  refine ⟨fun name => rfl, fun name => ?_, by decide, fun name h => ?_⟩
  · exact ⟨le_max_left _ _, max_le (by decide) (min_le_left _ _)⟩
  · simp only [calculateNodeWidth, CONFIG.MIN_NODE_WIDTH, CONFIG.MAX_NODE_WIDTH,
      CONFIG.CHAR_WIDTH, CONFIG.PADDING] at h ⊢
    omega

/-- Witness for C8: a 21-character name exceeds the maximum text width and is
clamped to `MAX_NODE_WIDTH`. -/
theorem claim_C8_node_width_witness :
    CONFIG.MAX_NODE_WIDTH <
      "ABCDEFGHIJKLMNOPQRSTU".length * CONFIG.CHAR_WIDTH + CONFIG.PADDING ∧
    calculateNodeWidth "ABCDEFGHIJKLMNOPQRSTU" = CONFIG.MAX_NODE_WIDTH :=
  ⟨by decide, claim_C8_node_width.2.2.2 "ABCDEFGHIJKLMNOPQRSTU" (by decide)⟩

/-! ### Claim C9: single-person scenario -/

/-- C9: on the one-person graph with no spouse, children or parents, the
layout is exactly one focused node at the origin with generation 0 and no
connections. -/
theorem claim_C9_single_person :
    (computeLayout soloPerson.id soloTree).nodes.length = 1 ∧
    (∀ n ∈ (computeLayout soloPerson.id soloTree).nodes,
      n.isFocused = true ∧ n.generation = 0 ∧ n.x = 0 ∧ n.y = 0) ∧
    (computeLayout soloPerson.id soloTree).connections = [] := by decide

/-! ### Claim C7: cycle-safe termination -/

/-- C7: `computeLayout` is a total Lean function (the depth-counter
recursions of the source are embedded as structural recursion on the
remaining depth, so termination holds by construction); its result is
well-formed on every input graph, and on the two-person child cycle
(X lists Y as a child, Y lists X) each participant is placed at most once. -/
theorem claim_C7_cycle_safe :
    (∀ (fid : String) (t : FamilyTree),
      (computeLayout fid t).bounds.width =
        (computeLayout fid t).bounds.maxX - (computeLayout fid t).bounds.minX ∧
      (computeLayout fid t).bounds.height =
        (computeLayout fid t).bounds.maxY - (computeLayout fid t).bounds.minY) ∧
    ((computeLayout cycX.id cycTree).nodes.countP (fun n => n.person.id == "X") ≤ 1 ∧
     (computeLayout cycX.id cycTree).nodes.countP (fun n => n.person.id == "Y") ≤ 1 ∧
     (computeLayout cycY.id cycTree).nodes.countP (fun n => n.person.id == "X") ≤ 1 ∧
     (computeLayout cycY.id cycTree).nodes.countP (fun n => n.person.id == "Y") ≤ 1) := by
  constructor
  · intro fid t
    cases hl : lookupPerson t.people fid with
    | none => simp [computeLayout, hl]
    | some p =>
      simp only [computeLayout, hl]
      exact computeBounds_wf _
  · exact ⟨by decide, by decide, by decide, by decide⟩

/-! ### Claim C2: subtree width algorithm -/

theorem cswGo_eq_spec (people : List Person) :
    ∀ (r m d : Nat), r = m - d → d ≤ m →
    ∀ (pid : String) (vis : List String),
      cswGo people r pid vis = subtreeWidthSpec people m pid d vis := by
  intro r
  induction r with
  | zero =>
    intro m d hr hd pid vis
    have hdm : m = d := by omega
    subst hdm
    rw [cswGo_zero]
    unfold subtreeWidthSpec
    by_cases hv : pid ∈ vis
    · simp [hv]
    · rw [if_neg hv, if_neg (by simp [hv, Nat.lt_irrefl])]
      cases hl : lookupPerson people pid with
      | none => simp
      | some person => simp [le_refl]
  | succ r ih =>
    intro m d hr hd pid vis
    have hdlt : d < m := by omega
    rw [cswGo_succ]
    unfold subtreeWidthSpec
    by_cases hv : pid ∈ vis
    · simp [hv]
    · rw [if_neg hv, if_neg (by simp [hv]; omega)]
      cases hl : lookupPerson people pid with
      | none => simp
      | some person =>
        simp only
        by_cases hc : person.childrenIds = []
        · simp [hc]
        · rw [if_neg hc, dif_neg (by simp [hc]; omega)]
          congr 1
          rw [sumWithGaps_eq]
          generalize (match getSpouse person people with
            | some s => s.id :: pid :: vis
            | none => pid :: vis) = V
          rw [List.attach_map_val _ (fun cid => subtreeWidthSpec people m cid (d + 1) V)]
          rw [List.map_congr_left
            (fun cid _ => (ih m (d + 1) (by omega) (by omega) cid V).symm)]

/-- C2: `calculateSubtreeWidth` satisfies exactly the specified algorithm —
0 on depth overflow / revisit / absent id; couple width (spouse resolved or
not) when childless or at the depth limit; otherwise the maximum of couple
width and the gap-separated sum of the recursive widths of the unvisited
resolvable children in `childrenIds` order, each child call receiving an
independent copy of the visited set. -/
theorem claim_C2_subtree_width :
    ∀ (people : List Person) (maxDepth currentDepth : Nat) (personId : String)
      (visited : List String),
      calculateSubtreeWidth people maxDepth currentDepth personId visited =
        subtreeWidthSpec people maxDepth personId currentDepth visited := by
  intro people m d pid vis
  by_cases h : d > m
  · unfold calculateSubtreeWidth subtreeWidthSpec
    rw [if_pos h, if_pos (Or.inl h)]
  · unfold calculateSubtreeWidth
    rw [if_neg h]
    exact cswGo_eq_spec people (m - d) m d rfl (by omega) pid vis

/-! ### Width bounds -/

theorem personWidth_le_coupleWidth (person : Person) (spouse : Option Person) :
    calculateNodeWidth person.name ≤ calculateCoupleWidth person spouse := by
  cases spouse with
  | none => exact le_refl _
  | some s => simp only [calculateCoupleWidth]; omega

theorem coupleWidth_eq_of_spouse (person sp : Person) :
    calculateCoupleWidth person (some sp) =
      calculateNodeWidth person.name + calculateNodeWidth sp.name + CONFIG.SPOUSE_GAP := rfl

/-! ### `positionSingle` specification -/

theorem positionSingle_spec (fpid : String) (st : LayoutState) (person : Person)
    (cX cY : ℚ) (g : Int) (ic ip : Bool) :
    ∃ new,
      (positionSingle fpid st person cX cY g ic ip).2.nodes = st.nodes ++ new ∧
      (positionSingle fpid st person cX cY g ic ip).2.connections = st.connections ∧
      st.positioned ⊆ (positionSingle fpid st person cX cY g ic ip).2.positioned ∧
      person.id ∈ (positionSingle fpid st person cX cY g ic ip).2.positioned ∧
      (∀ x ∈ (positionSingle fpid st person cX cY g ic ip).2.positioned,
        x ∈ st.positioned ∨ x ∈ new.map (fun n => n.person.id)) ∧
      new.Pairwise xDisjoint ∧
      (∀ n ∈ new, n.person = person ∧ n.y = cY ∧ n.generation = g ∧
        n.height = CONFIG.NODE_HEIGHT ∧ n.width = calculateNodeWidth person.name ∧
        n.x = cX ∧ n.person.id ∉ st.positioned ∧
        n.person.id ∈ (positionSingle fpid st person cX cY g ic ip).2.positioned ∧
        n.isChild = ic ∧ n.isParent = ip ∧ n.isSpouse = false ∧
        n.isFocused = (person.id == fpid)) ∧
      (new.map (fun n => n.person.id)).Nodup ∧
      (person.id ∉ st.positioned → ∃ n ∈ new, n.person.id = person.id) := by
  unfold positionSingle
  by_cases h : person.id ∈ st.positioned
  · refine ⟨[], by simp [h], by simp [h], by simp [h], by simp [h], ?_, ?_, ?_, by simp, ?_⟩
    · simp [h]
    · exact List.Pairwise.nil
    · intro n hn; simp at hn
    · intro hcontra; exact absurd h hcontra
  · refine ⟨[createNode fpid person cX cY g false ic ip], by simp [h], by simp [h], ?_, ?_,
      ?_, ?_, ?_, by simp, ?_⟩
    · simp only [if_neg h]
      intro x hx
      exact List.mem_cons_of_mem _ hx
    · simp [h]
    · intro x hx
      simp only [if_neg h] at hx
      rcases List.mem_cons.mp hx with h1 | h2
      · right; simp [createNode, h1]
      · left; exact h2
    · exact List.pairwise_singleton _ _
    · intro n hn
      rcases List.mem_singleton.mp hn with rfl
      refine ⟨rfl, rfl, rfl, rfl, rfl, rfl, h, ?_, rfl, rfl, rfl, rfl⟩
      simp [createNode, h]
    · intro _
      exact ⟨createNode fpid person cX cY g false ic ip, List.mem_singleton_self _, rfl⟩

/-! ### `positionPair` specification -/

theorem positionPair_spec (fpid : String) (st : LayoutState) (L R : Person)
    (tw : Nat) (cX cY : ℚ) (g : Int) (ic ip : Bool)
    (htw : calculateNodeWidth L.name + calculateNodeWidth R.name + CONFIG.SPOUSE_GAP = tw) :
    (positionPair fpid st L R tw cX cY g ic ip).1.centerX = cX ∧
    ∃ new cnew,
      (positionPair fpid st L R tw cX cY g ic ip).2.nodes = st.nodes ++ new ∧
      (positionPair fpid st L R tw cX cY g ic ip).2.connections = st.connections ++ cnew ∧
      (∀ c ∈ cnew, c.type = ConnectionType.spouse) ∧
      st.positioned ⊆ (positionPair fpid st L R tw cX cY g ic ip).2.positioned ∧
      L.id ∈ (positionPair fpid st L R tw cX cY g ic ip).2.positioned ∧
      R.id ∈ (positionPair fpid st L R tw cX cY g ic ip).2.positioned ∧
      (∀ x ∈ (positionPair fpid st L R tw cX cY g ic ip).2.positioned,
        x ∈ st.positioned ∨ x ∈ new.map (fun n => n.person.id)) ∧
      new.Pairwise xDisjoint ∧
      (∀ n ∈ new, (n.person = L ∨ n.person = R) ∧ n.y = cY ∧ n.generation = g ∧
        n.height = CONFIG.NODE_HEIGHT ∧
        cX - (tw : ℚ) / 2 ≤ nodeLo n ∧ nodeHi n ≤ cX + (tw : ℚ) / 2 ∧
        n.person.id ∉ st.positioned ∧
        n.person.id ∈ (positionPair fpid st L R tw cX cY g ic ip).2.positioned ∧
        n.isChild = ic ∧ n.isParent = ip ∧ n.isFocused = (n.person.id == fpid) ∧
        (n.isSpouse = true → n.person.id ≠ fpid)) ∧
      (new.map (fun n => n.person.id)).Nodup ∧
      (∀ q : Person, (q = L ∨ q = R) → q.id ∉ st.positioned →
        ∃ n ∈ new, n.person.id = q.id) := by
  have hlwq : (calculateNodeWidth L.name : ℚ) ≤ (tw : ℚ) := by
    have : calculateNodeWidth L.name ≤ tw := by omega
    exact_mod_cast this
  have hrwq : (calculateNodeWidth R.name : ℚ) ≤ (tw : ℚ) := by
    have : calculateNodeWidth R.name ≤ tw := by omega
    exact_mod_cast this
  have hsumq : (calculateNodeWidth L.name : ℚ) + (calculateNodeWidth R.name : ℚ) ≤ (tw : ℚ) := by
    have : calculateNodeWidth L.name + calculateNodeWidth R.name ≤ tw := by omega
    exact_mod_cast this
  by_cases hL : L.id ∈ st.positioned
  · by_cases hR : R.id ∈ st.positioned
    · -- Case A: both already positioned — no node, one connection.
      refine ⟨by simp [positionPair, hL, hR], [],
        [{ id := "spouse-" ++ L.id ++ "-" ++ R.id
           type := ConnectionType.spouse
           «from» := ⟨cX - (tw : ℚ) / 2 + (calculateNodeWidth L.name : ℚ) / 2 +
             (calculateNodeWidth L.name : ℚ) / 2, cY⟩
           «to» := ⟨cX + (tw : ℚ) / 2 - (calculateNodeWidth R.name : ℚ) / 2 -
             (calculateNodeWidth R.name : ℚ) / 2, cY⟩
           fromId := L.id
           toId := R.id }],
        by simp [positionPair, hL, hR], by simp [positionPair, hL, hR], ?_,
        by simp [positionPair, hL, hR], by simp [positionPair, hL, hR],
        by simp [positionPair, hL, hR], ?_, List.Pairwise.nil,
        by simp, by simp, ?_⟩
      · intro c hc
        rcases List.mem_singleton.mp hc with rfl
        rfl
      · intro x hx
        simp only [positionPair, if_pos hL, if_pos hR] at hx
        exact Or.inl hx
      · intro q hq hq2
        rcases hq with rfl | rfl
        · exact absurd hL hq2
        · exact absurd hR hq2
    · -- Case B: left positioned, right newly placed.
      refine ⟨by simp [positionPair, hL, hR],
        [createNode fpid R (cX + (tw : ℚ) / 2 - (calculateNodeWidth R.name : ℚ) / 2) cY g
          (R.id != fpid) ic ip],
        [{ id := "spouse-" ++ L.id ++ "-" ++ R.id
           type := ConnectionType.spouse
           «from» := ⟨cX - (tw : ℚ) / 2 + (calculateNodeWidth L.name : ℚ) / 2 +
             (calculateNodeWidth L.name : ℚ) / 2, cY⟩
           «to» := ⟨cX + (tw : ℚ) / 2 - (calculateNodeWidth R.name : ℚ) / 2 -
             (calculateNodeWidth R.name : ℚ) / 2, cY⟩
           fromId := L.id
           toId := R.id }],
        by simp [positionPair, hL, hR], by simp [positionPair, hL, hR], ?_, ?_, ?_, ?_, ?_,
        List.pairwise_singleton _ _, ?_, by simp, ?_⟩
      · intro c hc
        rcases List.mem_singleton.mp hc with rfl
        rfl
      · intro x hx
        simp only [positionPair, if_pos hL, if_neg hR]
        exact List.mem_cons_of_mem _ hx
      · simp only [positionPair, if_pos hL, if_neg hR]
        exact List.mem_cons_of_mem _ hL
      · simp only [positionPair, if_pos hL, if_neg hR]
        exact List.mem_cons_self _ _
      · intro x hx
        simp only [positionPair, if_pos hL, if_neg hR] at hx
        rcases List.mem_cons.mp hx with h1 | h2
        · right; simp [createNode, h1]
        · left; exact h2
      · intro n hn
        rcases List.mem_singleton.mp hn with rfl
        refine ⟨Or.inr rfl, rfl, rfl, rfl, ?_, ?_, hR, ?_, rfl, rfl, rfl, ?_⟩
        · simp only [nodeLo, createNode]
          linarith
        · simp only [nodeHi, createNode]
          linarith
        · simp only [positionPair, if_pos hL, if_neg hR, createNode]
          exact List.mem_cons_self _ _
        · simp only [createNode, bne_iff_ne, ne_eq]
          intro h
          exact of_decide_eq_true (by simpa using h)
      · intro q hq hq2
        rcases hq with rfl | rfl
        · exact absurd hL hq2
        · exact ⟨_, List.mem_singleton_self _, rfl⟩
  · by_cases hR : R.id ∈ L.id :: st.positioned
    · -- Case C: left newly placed, right already positioned (or equal to left).
      refine ⟨by simp [positionPair, hL, hR],
        [createNode fpid L (cX - (tw : ℚ) / 2 + (calculateNodeWidth L.name : ℚ) / 2) cY g
          (L.id != fpid) ic ip],
        [{ id := "spouse-" ++ L.id ++ "-" ++ R.id
           type := ConnectionType.spouse
           «from» := ⟨cX - (tw : ℚ) / 2 + (calculateNodeWidth L.name : ℚ) / 2 +
             (calculateNodeWidth L.name : ℚ) / 2, cY⟩
           «to» := ⟨cX + (tw : ℚ) / 2 - (calculateNodeWidth R.name : ℚ) / 2 -
             (calculateNodeWidth R.name : ℚ) / 2, cY⟩
           fromId := L.id
           toId := R.id }],
        by simp [positionPair, hL, hR], by simp [positionPair, hL, hR], ?_, ?_, ?_, ?_, ?_,
        List.pairwise_singleton _ _, ?_, by simp, ?_⟩
      · intro c hc
        rcases List.mem_singleton.mp hc with rfl
        rfl
      · intro x hx
        simp only [positionPair, if_neg hL, if_pos hR]
        exact List.mem_cons_of_mem _ hx
      · simp only [positionPair, if_neg hL, if_pos hR]
        exact List.mem_cons_self _ _
      · simp only [positionPair, if_neg hL, if_pos hR]
        exact hR
      · intro x hx
        simp only [positionPair, if_neg hL, if_pos hR] at hx
        rcases List.mem_cons.mp hx with h1 | h2
        · right; simp [createNode, h1]
        · left; exact h2
      · intro n hn
        rcases List.mem_singleton.mp hn with rfl
        refine ⟨Or.inl rfl, rfl, rfl, rfl, ?_, ?_, hL, ?_, rfl, rfl, rfl, ?_⟩
        · simp only [nodeLo, createNode]
          linarith
        · simp only [nodeHi, createNode]
          linarith
        · simp only [positionPair, if_neg hL, if_pos hR, createNode]
          exact List.mem_cons_self _ _
        · simp only [createNode, bne_iff_ne, ne_eq]
          intro h
          exact of_decide_eq_true (by simpa using h)
      · intro q hq hq2
        rcases hq with rfl | rfl
        · exact ⟨_, List.mem_singleton_self _, rfl⟩
        · rcases List.mem_cons.mp hR with h1 | h2
          · exact ⟨_, List.mem_singleton_self _, h1.symm⟩
          · exact absurd h2 hq2
    · -- Case D: both partners newly placed.
      have hRL : R.id ≠ L.id := fun h => hR (h ▸ List.mem_cons_self _ _)
      have hRst : R.id ∉ st.positioned := fun h => hR (List.mem_cons_of_mem _ h)
      refine ⟨by simp [positionPair, hL, hR],
        [createNode fpid L (cX - (tw : ℚ) / 2 + (calculateNodeWidth L.name : ℚ) / 2) cY g
          (L.id != fpid) ic ip,
         createNode fpid R (cX + (tw : ℚ) / 2 - (calculateNodeWidth R.name : ℚ) / 2) cY g
          (R.id != fpid) ic ip],
        [{ id := "spouse-" ++ L.id ++ "-" ++ R.id
           type := ConnectionType.spouse
           «from» := ⟨cX - (tw : ℚ) / 2 + (calculateNodeWidth L.name : ℚ) / 2 +
             (calculateNodeWidth L.name : ℚ) / 2, cY⟩
           «to» := ⟨cX + (tw : ℚ) / 2 - (calculateNodeWidth R.name : ℚ) / 2 -
             (calculateNodeWidth R.name : ℚ) / 2, cY⟩
           fromId := L.id
           toId := R.id }],
        by simp [positionPair, hL, hR], by simp [positionPair, hL, hR], ?_, ?_, ?_, ?_, ?_,
        ?_, ?_, ?_, ?_⟩
      · intro c hc
        rcases List.mem_singleton.mp hc with rfl
        rfl
      · intro x hx
        simp only [positionPair, if_neg hL, if_neg hR]
        exact List.mem_cons_of_mem _ (List.mem_cons_of_mem _ hx)
      · simp only [positionPair, if_neg hL, if_neg hR]
        exact List.mem_cons_of_mem _ (List.mem_cons_self _ _)
      · simp only [positionPair, if_neg hL, if_neg hR]
        exact List.mem_cons_self _ _
      · intro x hx
        simp only [positionPair, if_neg hL, if_neg hR] at hx
        rcases List.mem_cons.mp hx with h1 | hx2
        · right; simp [createNode, h1]
        · rcases List.mem_cons.mp hx2 with h2 | h3
          · right; simp [createNode, h2]
          · left; exact h3
      · refine List.pairwise_cons.mpr ⟨?_, List.pairwise_singleton _ _⟩
        intro m hm
        rcases List.mem_singleton.mp hm with rfl
        left
        simp only [nodeHi, nodeLo, createNode]
        linarith
      · intro n hn
        rcases List.mem_cons.mp hn with rfl | hn2
        · refine ⟨Or.inl rfl, rfl, rfl, rfl, ?_, ?_, hL, ?_, rfl, rfl, rfl, ?_⟩
          · simp only [nodeLo, createNode]
            linarith
          · simp only [nodeHi, createNode]
            linarith
          · simp only [positionPair, if_neg hL, if_neg hR, createNode]
            exact List.mem_cons_of_mem _ (List.mem_cons_self _ _)
          · simp only [createNode, bne_iff_ne, ne_eq]
            intro h
            exact of_decide_eq_true (by simpa using h)
        · rcases List.mem_singleton.mp hn2 with rfl
          refine ⟨Or.inr rfl, rfl, rfl, rfl, ?_, ?_, hRst, ?_, rfl, rfl, rfl, ?_⟩
          · simp only [nodeLo, createNode]
            linarith
          · simp only [nodeHi, createNode]
            linarith
          · simp only [positionPair, if_neg hL, if_neg hR, createNode]
            exact List.mem_cons_self _ _
          · simp only [createNode, bne_iff_ne, ne_eq]
            intro h
            exact of_decide_eq_true (by simpa using h)
      · simp [createNode]
        exact fun h => hRL h.symm
      · intro q hq hq2
        rcases hq with rfl | rfl
        · exact ⟨_, List.mem_cons_self _ _, rfl⟩
        · exact ⟨_, List.mem_cons_of_mem _ (List.mem_cons_self _ _), rfl⟩

/-! ### `positionCouple` specification -/

theorem positionCouple_spec (people : List Person) (fpid : String) (st : LayoutState)
    (person : Person) (cX cY : ℚ) (g : Int) (ic ip : Bool) :
    (positionCouple people fpid st person cX cY g ic ip).1.centerX = cX ∧
    ∃ new cnew,
      (positionCouple people fpid st person cX cY g ic ip).2.nodes = st.nodes ++ new ∧
      (positionCouple people fpid st person cX cY g ic ip).2.connections =
        st.connections ++ cnew ∧
      (∀ c ∈ cnew, c.type = ConnectionType.spouse) ∧
      st.positioned ⊆ (positionCouple people fpid st person cX cY g ic ip).2.positioned ∧
      person.id ∈ (positionCouple people fpid st person cX cY g ic ip).2.positioned ∧
      (∀ sp, getSpouse person people = some sp →
        sp.id ∈ (positionCouple people fpid st person cX cY g ic ip).2.positioned) ∧
      (∀ x ∈ (positionCouple people fpid st person cX cY g ic ip).2.positioned,
        x ∈ st.positioned ∨ x ∈ new.map (fun n => n.person.id)) ∧
      new.Pairwise xDisjoint ∧
      (∀ n ∈ new, n.y = cY ∧ n.generation = g ∧ n.height = CONFIG.NODE_HEIGHT ∧
        cX - (calculateCoupleWidth person (getSpouse person people) : ℚ) / 2 ≤ nodeLo n ∧
        nodeHi n ≤ cX + (calculateCoupleWidth person (getSpouse person people) : ℚ) / 2 ∧
        n.person.id ∉ st.positioned ∧
        n.person.id ∈ (positionCouple people fpid st person cX cY g ic ip).2.positioned ∧
        n.isChild = ic ∧ n.isParent = ip ∧ n.isFocused = (n.person.id == fpid) ∧
        (n.isSpouse = true → n.person.id ≠ fpid)) ∧
      (new.map (fun n => n.person.id)).Nodup ∧
      (person.id ∉ st.positioned → ∃ n ∈ new, n.person.id = person.id) := by
  cases hsp : getSpouse person people with
  | none =>
    have hpc : positionCouple people fpid st person cX cY g ic ip =
        positionSingle fpid st person cX cY g ic ip := by
      simp [positionCouple, hsp]
    rw [hpc]
    obtain ⟨new, h1, h2, h3, h4, h5, h6, h7, h8, h9⟩ :=
      positionSingle_spec fpid st person cX cY g ic ip
    refine ⟨rfl, new, [], h1, by simp [h2], by simp, h3, h4, by simp, h5, h6, ?_, h8, h9⟩
    intro n hn
    obtain ⟨hp, hy, hg2, hh, hw, hx, hpos1, hpos2, hic, hip, hisp, hif⟩ := h7 n hn
    refine ⟨hy, hg2, hh, ?_, ?_, hpos1, hpos2, hic, hip, ?_, ?_⟩
    · rw [nodeLo, hx, hw]
      simp [calculateCoupleWidth]
    · rw [nodeHi, hx, hw]
      simp [calculateCoupleWidth]
    · rw [hif, hp]
    · rw [hisp]
      intro h
      exact absurd h.symm (by simp)
  | some sp =>
    by_cases hpos : sp.id ∈ st.positioned
    · have hpc : positionCouple people fpid st person cX cY g ic ip =
          positionSingle fpid st person cX cY g ic ip := by
        simp [positionCouple, hsp, hpos]
      rw [hpc]
      obtain ⟨new, h1, h2, h3, h4, h5, h6, h7, h8, h9⟩ :=
        positionSingle_spec fpid st person cX cY g ic ip
      have hwle : (calculateNodeWidth person.name : ℚ) ≤
          (calculateCoupleWidth person (some sp) : ℚ) := by
        exact_mod_cast personWidth_le_coupleWidth person (some sp)
      refine ⟨rfl, new, [], h1, by simp [h2], by simp, h3, h4, ?_, h5, h6, ?_, h8, h9⟩
      · intro sp2 hsp2
        injection hsp2 with h
        subst h
        exact h3 hpos
      · intro n hn
        obtain ⟨hp, hy, hg2, hh, hw, hx, hpos1, hpos2, hic, hip, hisp, hif⟩ := h7 n hn
        refine ⟨hy, hg2, hh, ?_, ?_, hpos1, hpos2, hic, hip, ?_, ?_⟩
        · rw [nodeLo, hx, hw]
          linarith
        · rw [nodeHi, hx, hw]
          linarith
        · rw [hif, hp]
        · rw [hisp]
          intro h
          exact absurd h.symm (by simp)
    · have htotal : calculateNodeWidth person.name + calculateNodeWidth sp.name +
          CONFIG.SPOUSE_GAP = calculateCoupleWidth person (some sp) := rfl
      cases hg : person.gender with
      | male =>
        have hpc : positionCouple people fpid st person cX cY g ic ip =
            positionPair fpid st person sp
              (calculateNodeWidth person.name + calculateNodeWidth sp.name +
                CONFIG.SPOUSE_GAP) cX cY g ic ip := by
          simp [positionCouple, hsp, hpos, hg]
        rw [hpc]
        obtain ⟨hcx, new, cnew, h1, h2, h3, h4, h5, h6, h7, h8, h9, h10, h11⟩ :=
          positionPair_spec fpid st person sp
            (calculateNodeWidth person.name + calculateNodeWidth sp.name + CONFIG.SPOUSE_GAP)
            cX cY g ic ip rfl
        refine ⟨hcx, new, cnew, h1, h2, h3, h4, h5, ?_, h7, h8, ?_, h10, fun h => h11 person
          (Or.inl rfl) h⟩
        · intro sp2 hsp2
          injection hsp2 with h
          subst h
          exact h6
        · intro n hn
          obtain ⟨hper, hy, hg2, hh, hlo, hhi, hpos1, hpos2, hic, hip, hif, hisp⟩ := h9 n hn
          exact ⟨hy, hg2, hh, by rw [← htotal]; exact hlo, by rw [← htotal]; exact hhi,
            hpos1, hpos2, hic, hip, hif, hisp⟩
      | female =>
        have hpc : positionCouple people fpid st person cX cY g ic ip =
            positionPair fpid st sp person
              (calculateNodeWidth person.name + calculateNodeWidth sp.name +
                CONFIG.SPOUSE_GAP) cX cY g ic ip := by
          simp [positionCouple, hsp, hpos, hg]
        rw [hpc]
        obtain ⟨hcx, new, cnew, h1, h2, h3, h4, h5, h6, h7, h8, h9, h10, h11⟩ :=
          positionPair_spec fpid st sp person
            (calculateNodeWidth person.name + calculateNodeWidth sp.name + CONFIG.SPOUSE_GAP)
            cX cY g ic ip (by omega)
        refine ⟨hcx, new, cnew, h1, h2, h3, h4, h6, ?_, h7, h8, ?_, h10, fun h => h11 person
          (Or.inr rfl) h⟩
        · intro sp2 hsp2
          injection hsp2 with h
          subst h
          exact h5
        · intro n hn
          obtain ⟨hper, hy, hg2, hh, hlo, hhi, hpos1, hpos2, hic, hip, hif, hisp⟩ := h9 n hn
          exact ⟨hy, hg2, hh, by rw [← htotal]; exact hlo, by rw [← htotal]; exact hhi,
            hpos1, hpos2, hic, hip, hif, hisp⟩

/-! ### List helpers -/

theorem nat_sublist_sum_le {l₁ l₂ : List Nat} (h : List.Sublist l₁ l₂) : l₁.sum ≤ l₂.sum := by
  induction h with
  | slnil => simp
  | cons a _ ih => simp only [List.sum_cons]; omega
  | cons₂ a _ ih => simp only [List.sum_cons]; omega

theorem sumWithGaps_le_of_sublist (gap : Nat) {l₁ l₂ : List Nat} (h : List.Sublist l₁ l₂) :
    sumWithGaps gap l₁ ≤ sumWithGaps gap l₂ := by
  rw [sumWithGaps_eq, sumWithGaps_eq]
  have h1 := nat_sublist_sum_le h
  have h2 := h.length_le
  have h3 : (l₁.length - 1) * gap ≤ (l₂.length - 1) * gap :=
    Nat.mul_le_mul_right _ (by omega)
  omega

theorem map_sum_le_of_pointwise {α : Type} (f g : α → Nat) :
    ∀ (l : List α), (∀ x ∈ l, f x ≤ g x) → (l.map f).sum ≤ (l.map g).sum := by
  intro l
  induction l with
  | nil => simp
  | cons a t ih =>
    intro h
    simp only [List.map_cons, List.sum_cons]
    exact Nat.add_le_add (h a (List.mem_cons_self _ _))
      (ih fun x hx => h x (List.mem_cons_of_mem _ hx))

theorem sumWithGaps_le_of_pointwise {α : Type} (gap : Nat) (f g : α → Nat) (l : List α)
    (h : ∀ x ∈ l, f x ≤ g x) : sumWithGaps gap (l.map f) ≤ sumWithGaps gap (l.map g) := by
  rw [sumWithGaps_eq, sumWithGaps_eq]
  simp only [List.length_map]
  have := map_sum_le_of_pointwise f g l h
  omega

theorem filter_sublist_filter_of_imp {α : Type} (p q : α → Bool) :
    ∀ (l : List α), (∀ x, p x = true → q x = true) → List.Sublist (l.filter p) (l.filter q) := by
  intro l h
  induction l with
  | nil => simp
  | cons a t ih =>
    by_cases hp : p a = true
    · rw [List.filter_cons_of_pos hp, List.filter_cons_of_pos (h a hp)]
      exact ih.cons₂ a
    · rw [List.filter_cons_of_neg (by simp [hp])]
      by_cases hq : q a = true
      · rw [List.filter_cons_of_pos hq]
        exact ih.cons a
      · rw [List.filter_cons_of_neg (by simp [hq])]
        exact ih

/-! ### Lookup lemmas -/

theorem lookupPerson_id {people : List Person} {pid : String} {q : Person}
    (h : lookupPerson people pid = some q) : q.id = pid := by
  have := List.find?_some h
  simpa using this

theorem lookupPerson_mem {people : List Person} {pid : String} {q : Person}
    (h : lookupPerson people pid = some q) : q ∈ people :=
  List.mem_of_find?_eq_some h

theorem lookupPerson_self {people : List Person} {pid : String} {q : Person}
    (h : lookupPerson people pid = some q) : lookupPerson people q.id = some q := by
  rw [lookupPerson_id h]
  exact h

/-! ### `pdChildren` lemmas -/

theorem pdChildren_facts {people : List Person} {p : Person} {P : List String} :
    ∀ q ∈ pdChildren people p P,
      lookupPerson people q.id = some q ∧ q.id ∉ P ∧ q ∈ people := by
  intro q hq
  unfold pdChildren at hq
  obtain ⟨hq1, hq2⟩ := List.mem_filter.mp hq
  obtain ⟨cid, hcid, hl⟩ := List.mem_filterMap.mp hq1
  have hid := lookupPerson_id hl
  refine ⟨hid ▸ hl, ?_, lookupPerson_mem hl⟩
  intro hmem
  simp [hmem] at hq2

theorem pdChildren_map_id (people : List Person) (P : List String) :
    ∀ (ids : List String),
      ((ids.filterMap (lookupPerson people)).filter
        (fun q => !(decide (q.id ∈ P)))).map (fun q => q.id) =
      ids.filter (fun cid => (lookupPerson people cid).isSome && !(decide (cid ∈ P))) := by
  intro ids
  induction ids with
  | nil => rfl
  | cons a t ih =>
    cases hl : lookupPerson people a with
    | none => simp [List.filterMap_cons, hl, ih]
    | some q =>
      have hqa : q.id = a := lookupPerson_id hl
      by_cases hp : a ∈ P
      · simp [List.filterMap_cons, hl, hqa, hp, ih]
      · simp [List.filterMap_cons, hl, hqa, hp, ih]

/-! ### Subtree width comparison lemmas -/

theorem cswGo_anti (people : List Person) :
    ∀ (r : Nat) (pid : String) (v v' : List String),
      (∀ x ∈ v, x ∈ v') → cswGo people r pid v' ≤ cswGo people r pid v := by
  intro r
  induction r with
  | zero =>
    intro pid v v' hsub
    rw [cswGo_zero, cswGo_zero]
    by_cases hv' : pid ∈ v'
    · rw [if_pos hv']
      exact Nat.zero_le _
    · have hv : pid ∉ v := fun h => hv' (hsub _ h)
      rw [if_neg hv', if_neg hv]
  | succ r ih =>
    intro pid v v' hsub
    rw [cswGo_succ, cswGo_succ]
    by_cases hv' : pid ∈ v'
    · rw [if_pos hv']
      exact Nat.zero_le _
    · have hv : pid ∉ v := fun h => hv' (hsub _ h)
      rw [if_neg hv', if_neg hv]
      cases hl : lookupPerson people pid with
      | none => simp
      | some person =>
        simp only
        by_cases hc : person.childrenIds = []
        · simp [hc]
        · rw [if_neg hc, if_neg hc]
          have hsubV : ∀ x ∈ (match getSpouse person people with
              | some s => s.id :: pid :: v
              | none => pid :: v),
              x ∈ (match getSpouse person people with
              | some s => s.id :: pid :: v'
              | none => pid :: v') := by
            cases getSpouse person people with
            | none =>
              intro x hx
              rcases List.mem_cons.mp hx with rfl | hx2
              · exact List.mem_cons_self _ _
              · exact List.mem_cons_of_mem _ (hsub _ hx2)
            | some s =>
              intro x hx
              rcases List.mem_cons.mp hx with rfl | hx2
              · exact List.mem_cons_self _ _
              · rcases List.mem_cons.mp hx2 with rfl | hx3
                · exact List.mem_cons_of_mem _ (List.mem_cons_self _ _)
                · exact List.mem_cons_of_mem _ (List.mem_cons_of_mem _ (hsub _ hx3))
          refine max_le_max (le_refl _)
            (le_trans
              (sumWithGaps_le_of_pointwise CONFIG.HORIZONTAL_GAP _ _ _
                (fun x _ => ih x _ _ hsubV))
              (sumWithGaps_le_of_sublist CONFIG.HORIZONTAL_GAP
                (List.Sublist.map _
                  (filter_sublist_filter_of_imp _ _ _ (fun x hx => ?_)))))
          simp only [Bool.and_eq_true, Bool.not_eq_eq_eq_not, Bool.not_true,
            decide_eq_false_iff_not] at hx ⊢
          exact ⟨hx.1, fun hmem => hx.2 (hsubV _ hmem)⟩

theorem coupleWidth_le_cswGo (people : List Person) (r : Nat) (pid : String)
    (v : List String) (hv : pid ∉ v) (p : Person)
    (hl : lookupPerson people pid = some p) :
    calculateCoupleWidth p (getSpouse p people) ≤ cswGo people r pid v := by
  cases r with
  | zero =>
    rw [cswGo_zero, if_neg hv]
    simp [hl]
  | succ r =>
    rw [cswGo_succ, if_neg hv]
    simp only [hl]
    by_cases hc : p.childrenIds = []
    · simp [hc]
    · rw [if_neg hc]
      exact le_max_left _ _

theorem calculateSubtreeWidth_zero_eq (people : List Person) (r : Nat) (pid : String)
    (P : List String) :
    calculateSubtreeWidth people r 0 pid P = cswGo people r pid P := by
  unfold calculateSubtreeWidth
  simp

/-- Key reservation inequality: the actual row width the placement loop will
lay out for `c`'s children (computed against the grown positioned set `P1`)
never exceeds the subtree width estimated for `c` against the smaller
visited set `P0`, provided `P1` already contains `c`, its spouse, and `P0`. -/
theorem pdBound_le_cswGo (people : List Person) (r : Nat) (c : Person)
    (P0 P1 : List String)
    (hl : lookupPerson people c.id = some c)
    (hc0 : c.id ∉ P0)
    (hsub : ∀ x ∈ P0, x ∈ P1)
    (hcid : c.id ∈ P1)
    (hspid : ∀ sp, getSpouse c people = some sp → sp.id ∈ P1) :
    pdBound people r c P1 ≤ cswGo people r c.id P0 := by
  cases r with
  | zero =>
    rw [pdBound_zero]
    exact Nat.zero_le _
  | succ r =>
    rw [pdBound_succ, cswGo_succ, if_neg hc0]
    simp only [hl]
    have hVsub : ∀ x ∈ (match getSpouse c people with
        | some s => s.id :: c.id :: P0
        | none => c.id :: P0), x ∈ P1 := by
      cases hsp : getSpouse c people with
      | none =>
        intro x hx
        rcases List.mem_cons.mp hx with rfl | hx2
        · exact hcid
        · exact hsub _ hx2
      | some s =>
        intro x hx
        rcases List.mem_cons.mp hx with rfl | hx2
        · exact hspid s hsp
        · rcases List.mem_cons.mp hx2 with rfl | hx3
          · exact hcid
          · exact hsub _ hx3
    by_cases hch : c.childrenIds = []
    · have hempty : pdChildren people c P1 = [] := by simp [pdChildren, hch]
      simp [hempty]
    · rw [if_neg hch]
      refine le_trans ?_ (le_max_right _ _)
      by_cases hpd : pdChildren people c P1 = []
      · simp [hpd]
      · rw [if_neg hpd]
        have hlen : (pdChildren people c P1).length =
            ((pdChildren people c P1).map (pdAdjusted people r P1)).length :=
          (List.length_map _ _).symm
        rw [hlen, ← sumWithGaps_eq]
        have hmap1 : (pdChildren people c P1).map (pdAdjusted people r P1) =
            ((pdChildren people c P1).map (fun q => q.id)).map
              (childSliceWidth people r P1) := by
          rw [List.map_map]
          apply List.map_congr_left
          intro q hq
          obtain ⟨hlq, _, _⟩ := pdChildren_facts q hq
          simp [Function.comp, childSliceWidth, hlq]
        have hids : (pdChildren people c P1).map (fun q => q.id) =
            c.childrenIds.filter
              (fun cid => (lookupPerson people cid).isSome && !(decide (cid ∈ P1))) :=
          pdChildren_map_id people P1 c.childrenIds
        rw [hmap1, hids]
        refine le_trans
          (sumWithGaps_le_of_pointwise CONFIG.HORIZONTAL_GAP _
            (fun cid => cswGo people r cid
              (match getSpouse c people with
                | some s => s.id :: c.id :: P0
                | none => c.id :: P0)) _ ?_)
          (sumWithGaps_le_of_sublist CONFIG.HORIZONTAL_GAP
            (List.Sublist.map _
              (filter_sublist_filter_of_imp _ _ _ (fun x hx => ?_))))
        · intro cid hcid2
          obtain ⟨hcmem, hcfilt⟩ := List.mem_filter.mp hcid2
          simp only [Bool.and_eq_true, Bool.not_eq_eq_eq_not, Bool.not_true,
            decide_eq_false_iff_not, Option.isSome_iff_exists] at hcfilt
          obtain ⟨⟨q, hq⟩, hnotP1⟩ := hcfilt
          have hqid := lookupPerson_id hq
          have hnotV : cid ∉ (match getSpouse c people with
              | some s => s.id :: c.id :: P0
              | none => c.id :: P0) := fun hmem => hnotP1 (hVsub _ hmem)
          rw [childSliceWidth, hq]
          refine max_le ?_ ?_
          · rw [calculateSubtreeWidth_zero_eq, hqid]
            exact cswGo_anti people r cid _ P1 hVsub
          · exact coupleWidth_le_cswGo people r cid _ hnotV q hq
        · simp only [Bool.and_eq_true, Bool.not_eq_eq_eq_not, Bool.not_true,
            decide_eq_false_iff_not] at hx ⊢
          exact ⟨hx.1, fun hmem => hx.2 (hVsub _ hmem)⟩

/-! ### `findParents` lemmas -/

theorem findParents_mem {pid : String} {people : List Person} :
    ∀ p ∈ findParents pid people, p ∈ people := by
  suffices h : ∀ (l : List Person) (acc : List Person),
      ∀ p ∈ l.foldl (fun parents person =>
        if pid ∈ person.childrenIds then
          if parents.any (fun q => q.spouseId == some person.id) then parents
          else parents ++ [person]
        else parents) acc, p ∈ acc ∨ p ∈ l by
    intro p hp
    rcases h people [] p hp with h1 | h2
    · simp at h1
    · exact h2
  intro l
  induction l with
  | nil =>
    intro acc p hp
    exact Or.inl hp
  | cons a t ih =>
    intro acc p hp
    simp only [List.foldl_cons] at hp
    rcases ih _ p hp with h1 | h2
    · by_cases hc : pid ∈ a.childrenIds
      · by_cases hs : (acc.any (fun q => q.spouseId == some a.id)) = true
        · rw [if_pos hc, if_pos hs] at h1
          exact Or.inl h1
        · rw [if_pos hc, if_neg hs] at h1
          rcases List.mem_append.mp h1 with h3 | h4
          · exact Or.inl h3
          · rcases List.mem_singleton.mp h4 with rfl
            exact Or.inr (List.mem_cons_self _ _)
      · rw [if_neg hc] at h1
        exact Or.inl h1
    · exact Or.inr (List.mem_cons_of_mem _ h2)

/-! ### `positionAncestors` specification -/

theorem positionAncestors_spec (people : List Person) (fpid : String) :
    ∀ (r : Nat) (st : LayoutState) (pid : String) (cX y : ℚ) (g : Int),
    ∃ new cnew,
      (positionAncestors people fpid r st pid cX y g).nodes = st.nodes ++ new ∧
      (positionAncestors people fpid r st pid cX y g).connections =
        st.connections ++ cnew ∧
      st.positioned ⊆ (positionAncestors people fpid r st pid cX y g).positioned ∧
      (∀ x ∈ (positionAncestors people fpid r st pid cX y g).positioned,
        x ∈ st.positioned ∨ x ∈ new.map (fun n => n.person.id)) ∧
      new.Pairwise (fun n m => n.y = m.y → xDisjoint n m) ∧
      (∀ n ∈ new,
        n.y ≤ y - (CONFIG.VERTICAL_GAP : ℚ) - (CONFIG.NODE_HEIGHT : ℚ) ∧
        g - r ≤ n.generation ∧ n.generation ≤ g - 1 ∧
        n.height = CONFIG.NODE_HEIGHT ∧
        n.person.id ∉ st.positioned ∧
        n.person.id ∈ (positionAncestors people fpid r st pid cX y g).positioned ∧
        n.isFocused = (n.person.id == fpid) ∧
        (n.isSpouse = true → n.person.id ≠ fpid)) ∧
      (new.map (fun n => n.person.id)).Nodup := by
  intro r
  induction r with
  | zero =>
    intro st pid cX y g
    rw [positionAncestors_zero]
    exact ⟨[], [], by simp, by simp, fun _ h => h, fun x hx => Or.inl hx,
      List.Pairwise.nil, fun n hn => absurd hn (List.not_mem_nil n), by simp⟩
  | succ r ih =>
    intro st pid cX y g
    cases hpar : (findParents pid people).filter
        (fun p => !(decide (p.id ∈ st.positioned))) with
    | nil =>
      rw [positionAncestors_succ]
      simp only [hpar]
      exact ⟨[], [], by simp, by simp, fun _ h => h, fun x hx => Or.inl hx,
        List.Pairwise.nil, fun n hn => absurd hn (List.not_mem_nil n), by simp⟩
    | cons parent rest =>
      have hparent_pos : parent.id ∉ st.positioned := by
        have : parent ∈ (findParents pid people).filter
            (fun p => !(decide (p.id ∈ st.positioned))) := by
          rw [hpar]; exact List.mem_cons_self _ _
        have := (List.mem_filter.mp this).2
        simpa using this
      obtain ⟨hcx1, new1, cnew1, hn1, hc1, _, hsub1, hpid1, hsp1, htrack1, hpw1, hprops1,
        hnodup1, hpush1⟩ :=
        positionCouple_spec people fpid st parent cX
          (y - (CONFIG.VERTICAL_GAP : ℚ) - (CONFIG.NODE_HEIGHT : ℚ)) (g - 1) false true
      set st2 := (positionCouple people fpid st parent cX
        (y - (CONFIG.VERTICAL_GAP : ℚ) - (CONFIG.NODE_HEIGHT : ℚ)) (g - 1) false true).2
        with hst2
      have hmain : ∀ (st3 : LayoutState), st3.nodes = st2.nodes →
          st3.positioned = st2.positioned →
          (∃ cnew2, st3.connections = st2.connections ++ cnew2) →
          ∃ new cnew,
          (positionAncestors people fpid r st3 parent.id
              (positionCouple people fpid st parent cX
                (y - (CONFIG.VERTICAL_GAP : ℚ) - (CONFIG.NODE_HEIGHT : ℚ)) (g - 1) false
                true).1.centerX
              (y - (CONFIG.VERTICAL_GAP : ℚ) - (CONFIG.NODE_HEIGHT : ℚ)) (g - 1)).nodes =
            st.nodes ++ new ∧
          (positionAncestors people fpid r st3 parent.id
              (positionCouple people fpid st parent cX
                (y - (CONFIG.VERTICAL_GAP : ℚ) - (CONFIG.NODE_HEIGHT : ℚ)) (g - 1) false
                true).1.centerX
              (y - (CONFIG.VERTICAL_GAP : ℚ) - (CONFIG.NODE_HEIGHT : ℚ)) (g - 1)).connections =
            st.connections ++ cnew ∧
          st.positioned ⊆ (positionAncestors people fpid r st3 parent.id
              (positionCouple people fpid st parent cX
                (y - (CONFIG.VERTICAL_GAP : ℚ) - (CONFIG.NODE_HEIGHT : ℚ)) (g - 1) false
                true).1.centerX
              (y - (CONFIG.VERTICAL_GAP : ℚ) - (CONFIG.NODE_HEIGHT : ℚ)) (g - 1)).positioned ∧
          (∀ x ∈ (positionAncestors people fpid r st3 parent.id
              (positionCouple people fpid st parent cX
                (y - (CONFIG.VERTICAL_GAP : ℚ) - (CONFIG.NODE_HEIGHT : ℚ)) (g - 1) false
                true).1.centerX
              (y - (CONFIG.VERTICAL_GAP : ℚ) - (CONFIG.NODE_HEIGHT : ℚ)) (g - 1)).positioned,
            x ∈ st.positioned ∨ x ∈ new.map (fun n => n.person.id)) ∧
          new.Pairwise (fun n m => n.y = m.y → xDisjoint n m) ∧
          (∀ n ∈ new,
            n.y ≤ y - (CONFIG.VERTICAL_GAP : ℚ) - (CONFIG.NODE_HEIGHT : ℚ) ∧
            g - (r + 1 : Nat) ≤ n.generation ∧ n.generation ≤ g - 1 ∧
            n.height = CONFIG.NODE_HEIGHT ∧
            n.person.id ∉ st.positioned ∧
            n.person.id ∈ (positionAncestors people fpid r st3 parent.id
              (positionCouple people fpid st parent cX
                (y - (CONFIG.VERTICAL_GAP : ℚ) - (CONFIG.NODE_HEIGHT : ℚ)) (g - 1) false
                true).1.centerX
              (y - (CONFIG.VERTICAL_GAP : ℚ) - (CONFIG.NODE_HEIGHT : ℚ)) (g - 1)).positioned ∧
            n.isFocused = (n.person.id == fpid) ∧
            (n.isSpouse = true → n.person.id ≠ fpid)) ∧
          (new.map (fun n => n.person.id)).Nodup := by
        intro st3 h3n h3p h3c
        obtain ⟨cnew2, h3c⟩ := h3c
        obtain ⟨new2, cnew3, hn2, hc2, hsub2, htrack2, hpw2, hprops2, hnodup2⟩ :=
          ih st3 parent.id
            (positionCouple people fpid st parent cX
              (y - (CONFIG.VERTICAL_GAP : ℚ) - (CONFIG.NODE_HEIGHT : ℚ)) (g - 1) false
              true).1.centerX
            (y - (CONFIG.VERTICAL_GAP : ℚ) - (CONFIG.NODE_HEIGHT : ℚ)) (g - 1)
        refine ⟨new1 ++ new2, cnew1 ++ cnew2 ++ cnew3, ?_, ?_, ?_, ?_, ?_, ?_, ?_⟩
        · rw [hn2, h3n, hn1, List.append_assoc]
        · rw [hc2, h3c, hc1]
          simp [List.append_assoc]
        · intro x hx
          exact hsub2 (h3p ▸ hsub1 hx)
        · intro x hx
          rcases htrack2 x hx with h4 | h4
          · rw [h3p] at h4
            rcases htrack1 x h4 with h5 | h5
            · exact Or.inl h5
            · right
              rw [List.map_append]
              exact List.mem_append.mpr (Or.inl h5)
          · right
            rw [List.map_append]
            exact List.mem_append.mpr (Or.inr h4)
        · rw [List.pairwise_append]
          refine ⟨List.Pairwise.imp ?_ hpw1, hpw2, ?_⟩
          · intro a b h
            exact fun _ => h
          intro n hn m hm hy
          exfalso
          have hny : n.y = y - (CONFIG.VERTICAL_GAP : ℚ) - (CONFIG.NODE_HEIGHT : ℚ) :=
            (hprops1 n hn).1
          have hmy : m.y ≤ y - (CONFIG.VERTICAL_GAP : ℚ) - (CONFIG.NODE_HEIGHT : ℚ) -
              (CONFIG.VERTICAL_GAP : ℚ) - (CONFIG.NODE_HEIGHT : ℚ) := (hprops2 m hm).1
          rw [hy] at hny
          rw [hny] at hmy
          norm_num [CONFIG.VERTICAL_GAP, CONFIG.NODE_HEIGHT] at hmy
          linarith
        · intro n hn
          rcases List.mem_append.mp hn with h4 | h4
          · obtain ⟨hy, hg, hh, hlo, hhi, hpos, hpos2, _, _, hif, hisp⟩ := hprops1 n h4
            refine ⟨le_of_eq hy, by omega, by omega, hh, hpos,
              hsub2 (h3p ▸ hpos2), hif, hisp⟩
          · obtain ⟨hy, hg1, hg2, hh, hpos, hpos2, hif, hisp⟩ := hprops2 n h4
            have hvg : (0 : ℚ) ≤ (CONFIG.VERTICAL_GAP : ℚ) + (CONFIG.NODE_HEIGHT : ℚ) := by
              norm_num [CONFIG.VERTICAL_GAP, CONFIG.NODE_HEIGHT]
            refine ⟨by linarith, by omega, by omega, hh, ?_, hpos2, hif, hisp⟩
            intro hmem
            exact hpos (h3p ▸ hsub1 hmem)
        · rw [List.map_append]
          rw [List.nodup_append]
          refine ⟨hnodup1, hnodup2, ?_⟩
          intro x hx1 hx2
          obtain ⟨n, hn, hnid⟩ := List.mem_map.mp hx1
          obtain ⟨m, hm, hmid⟩ := List.mem_map.mp hx2
          have := (hprops2 m hm).2.2.2.2.1
          rw [hmid] at this
          apply this
          rw [h3p, ← hnid]
          exact (hprops1 n hn).2.2.2.2.2.2.1
      rw [positionAncestors_succ]
      simp only [hpar]
      cases hfind : st2.nodes.find? (fun n => n.person.id == pid) with
      | none =>
        have := hmain st2 rfl rfl ⟨[], by simp⟩
        simpa [hfind, ← hst2] using this
      | some childNode =>
        have := hmain { st2 with connections := st2.connections ++
          [{ id := "parent-child-" ++ parent.id ++ "-" ++ pid
             type := ConnectionType.parentChild
             «from» := ⟨(positionCouple people fpid st parent cX
               (y - (CONFIG.VERTICAL_GAP : ℚ) - (CONFIG.NODE_HEIGHT : ℚ)) (g - 1) false
               true).1.centerX,
               y - (CONFIG.VERTICAL_GAP : ℚ) - (CONFIG.NODE_HEIGHT : ℚ) +
                 (CONFIG.NODE_HEIGHT : ℚ) / 2⟩
             «to» := ⟨childNode.x, y - (CONFIG.NODE_HEIGHT : ℚ) / 2⟩
             fromId := parent.id
             toId := pid }] } rfl rfl ⟨_, rfl⟩
        simpa [hfind, ← hst2] using this

/-! ### Zip helpers -/

theorem mem_zip_map {α β : Type} (f : α → β) :
    ∀ (l : List α) (a : α) (b : β), (a, b) ∈ l.zip (l.map f) → a ∈ l ∧ b = f a := by
  intro l
  induction l with
  | nil =>
    intro a b h
    simp at h
  | cons x xs ih =>
    intro a b h
    simp only [List.map_cons, List.zip_cons_cons, List.mem_cons] at h
    rcases h with h1 | h2
    · obtain ⟨rfl, rfl⟩ := Prod.mk.injEq .. ▸ h1
      exact ⟨List.mem_cons_self _ _, rfl⟩
    · obtain ⟨hmem, hval⟩ := ih a b h2
      exact ⟨List.mem_cons_of_mem _ hmem, hval⟩

theorem zip_map_snd {α β : Type} (f : α → β) :
    ∀ (l : List α), (l.zip (l.map f)).map (fun cw => cw.2) = l.map f := by
  intro l
  induction l with
  | nil => rfl
  | cons x xs ih => simp [ih]

theorem sumWithGaps_cons_le (gap w : Nat) (ws : List Nat) :
    w ≤ sumWithGaps gap (w :: ws) := by
  cases ws with
  | nil => exact le_refl _
  | cons a t => simp only [sumWithGaps]; omega

theorem sumWithGaps_cons_of_ne (gap w : Nat) (ws : List Nat) (h : ws ≠ []) :
    sumWithGaps gap (w :: ws) = w + gap + sumWithGaps gap ws := by
  cases ws with
  | nil => exact absurd rfl h
  | cons a t => rfl

theorem append_eq_self_nil {α : Type} {l new : List α} (h : l = l ++ new) : new = [] := by
  have := congrArg List.length h
  simp at this
  exact this

/-! ### `pdFold` equations -/

theorem pdFold_nil (people : List Person) (fpid : String) (p : Person)
    (cX y childY : ℚ) (g : Int) (r : Nat) (stc : LayoutState) (curX : ℚ) :
    pdFold people fpid p cX y childY g r [] stc curX = stc := rfl

theorem pdFold_cons (people : List Person) (fpid : String) (p : Person)
    (cX y childY : ℚ) (g : Int) (r : Nat) (c : Person) (w : Nat)
    (t : List (Person × Nat)) (stc : LayoutState) (curX : ℚ) :
    pdFold people fpid p cX y childY g r ((c, w) :: t) stc curX =
      pdFold people fpid p cX y childY g r t
        (positionDescendants people fpid r
          (match (positionCouple people fpid stc c (curX + (w : ℚ) / 2) childY (g + 1)
              true false).2.nodes.find? (fun n => n.person.id == c.id) with
            | some childNode =>
              { (positionCouple people fpid stc c (curX + (w : ℚ) / 2) childY (g + 1)
                  true false).2 with
                connections := (positionCouple people fpid stc c (curX + (w : ℚ) / 2) childY
                  (g + 1) true false).2.connections ++
                  [{ id := "parent-child-" ++ p.id ++ "-" ++ c.id
                     type := ConnectionType.parentChild
                     «from» := ⟨cX, y + (CONFIG.NODE_HEIGHT : ℚ) / 2⟩
                     «to» := ⟨childNode.x, childY - (CONFIG.NODE_HEIGHT : ℚ) / 2⟩
                     fromId := p.id
                     toId := c.id }] }
            | none => (positionCouple people fpid stc c (curX + (w : ℚ) / 2) childY (g + 1)
                true false).2)
          c
          (positionCouple people fpid stc c (curX + (w : ℚ) / 2) childY (g + 1)
            true false).1.centerX
          childY (g + 1))
        (curX + (w : ℚ) + (CONFIG.HORIZONTAL_GAP : ℚ)) := rfl

theorem positionDescendants_succ_fold (people : List Person) (fpid : String) (r : Nat)
    (st : LayoutState) (p : Person) (cX y : ℚ) (g : Int) :
    positionDescendants people fpid (r + 1) st p cX y g =
      (if pdChildren people p st.positioned = [] then st
      else pdFold people fpid p cX y
        (y + (CONFIG.VERTICAL_GAP : ℚ) + (CONFIG.NODE_HEIGHT : ℚ)) g r
        ((pdChildren people p st.positioned).zip
          ((pdChildren people p st.positioned).map (pdAdjusted people r st.positioned)))
        st
        (cX - ((((pdChildren people p st.positioned).map
            (pdAdjusted people r st.positioned)).sum +
          ((pdChildren people p st.positioned).length - 1) * CONFIG.HORIZONTAL_GAP : Nat) : ℚ)
          / 2)) := rfl

/-! ### `pdFold` specification -/

theorem pdFold_spec (people : List Person) (fpid : String) (p : Person)
    (cX y : ℚ) (g : Int) (r : Nat)
    (hrec : ∀ (st : LayoutState) (c : Person) (ccX ccY : ℚ) (gg : Int),
      ∃ new cnew,
        (positionDescendants people fpid r st c ccX ccY gg).nodes = st.nodes ++ new ∧
        (positionDescendants people fpid r st c ccX ccY gg).connections =
          st.connections ++ cnew ∧
        st.positioned ⊆ (positionDescendants people fpid r st c ccX ccY gg).positioned ∧
        (∀ x ∈ (positionDescendants people fpid r st c ccX ccY gg).positioned,
          x ∈ st.positioned ∨ x ∈ new.map (fun n => n.person.id)) ∧
        new.Pairwise (fun n m => n.y = m.y → xDisjoint n m) ∧
        (∀ n ∈ new,
          ccY + (CONFIG.VERTICAL_GAP : ℚ) + (CONFIG.NODE_HEIGHT : ℚ) ≤ n.y ∧
          gg + 1 ≤ n.generation ∧ n.generation ≤ gg + (r : Int) ∧
          n.height = CONFIG.NODE_HEIGHT ∧
          ccX - (pdBound people r c st.positioned : ℚ) / 2 ≤ nodeLo n ∧
          nodeHi n ≤ ccX + (pdBound people r c st.positioned : ℚ) / 2 ∧
          n.person.id ∉ st.positioned ∧
          n.person.id ∈ (positionDescendants people fpid r st c ccX ccY gg).positioned ∧
          n.isFocused = (n.person.id == fpid) ∧
          (n.isSpouse = true → n.person.id ≠ fpid)) ∧
        (new.map (fun n => n.person.id)).Nodup) :
    ∀ (l : List (Person × Nat)) (P0 : List String) (stc : LayoutState) (curX : ℚ),
      (∀ x ∈ P0, x ∈ stc.positioned) →
      (∀ cw ∈ l, lookupPerson people cw.1.id = some cw.1 ∧ cw.1.id ∉ P0 ∧
        calculateCoupleWidth cw.1 (getSpouse cw.1 people) ≤ cw.2 ∧
        cswGo people r cw.1.id P0 ≤ cw.2) →
      ∃ new cnew,
        (pdFold people fpid p cX y
            (y + (CONFIG.VERTICAL_GAP : ℚ) + (CONFIG.NODE_HEIGHT : ℚ)) g r l stc
            curX).nodes = stc.nodes ++ new ∧
        (pdFold people fpid p cX y
            (y + (CONFIG.VERTICAL_GAP : ℚ) + (CONFIG.NODE_HEIGHT : ℚ)) g r l stc
            curX).connections = stc.connections ++ cnew ∧
        stc.positioned ⊆ (pdFold people fpid p cX y
            (y + (CONFIG.VERTICAL_GAP : ℚ) + (CONFIG.NODE_HEIGHT : ℚ)) g r l stc
            curX).positioned ∧
        (∀ x ∈ (pdFold people fpid p cX y
            (y + (CONFIG.VERTICAL_GAP : ℚ) + (CONFIG.NODE_HEIGHT : ℚ)) g r l stc
            curX).positioned,
          x ∈ stc.positioned ∨ x ∈ new.map (fun n => n.person.id)) ∧
        new.Pairwise (fun n m => n.y = m.y → xDisjoint n m) ∧
        (∀ n ∈ new,
          y + (CONFIG.VERTICAL_GAP : ℚ) + (CONFIG.NODE_HEIGHT : ℚ) ≤ n.y ∧
          g + 1 ≤ n.generation ∧ n.generation ≤ g + (r : Int) + 1 ∧
          n.height = CONFIG.NODE_HEIGHT ∧
          curX ≤ nodeLo n ∧
          nodeHi n ≤ curX +
            (sumWithGaps CONFIG.HORIZONTAL_GAP (l.map (fun cw => cw.2)) : ℚ) ∧
          n.person.id ∉ stc.positioned ∧
          n.person.id ∈ (pdFold people fpid p cX y
            (y + (CONFIG.VERTICAL_GAP : ℚ) + (CONFIG.NODE_HEIGHT : ℚ)) g r l stc
            curX).positioned ∧
          n.isFocused = (n.person.id == fpid) ∧
          (n.isSpouse = true → n.person.id ≠ fpid)) ∧
        (new.map (fun n => n.person.id)).Nodup := by
  intro l
  induction l with
  | nil =>
    intro P0 stc curX hP0 hfacts
    rw [pdFold_nil]
    exact ⟨[], [], by simp, by simp, fun _ h => h, fun x hx => Or.inl hx,
      List.Pairwise.nil, fun n hn => absurd hn (List.not_mem_nil n), by simp⟩
  | cons cw t ihl =>
    obtain ⟨c, w⟩ := cw
    intro P0 stc curX hP0 hfacts
    obtain ⟨hlc, hc0, hcwle, hcswle⟩ := hfacts (c, w) (List.mem_cons_self _ _)
    have hfacts_t : ∀ cw ∈ t, lookupPerson people cw.1.id = some cw.1 ∧ cw.1.id ∉ P0 ∧
        calculateCoupleWidth cw.1 (getSpouse cw.1 people) ≤ cw.2 ∧
        cswGo people r cw.1.id P0 ≤ cw.2 :=
      fun cw h => hfacts cw (List.mem_cons_of_mem _ h)
    rw [pdFold_cons]
    obtain ⟨hcx1, new1, cnew1, hn1, hc1, _hctype, hsub1, hpid1, hsp1, htrack1, hpw1,
      hprops1, hnodup1, _hpush1⟩ :=
      positionCouple_spec people fpid stc c (curX + (w : ℚ) / 2)
        (y + (CONFIG.VERTICAL_GAP : ℚ) + (CONFIG.NODE_HEIGHT : ℚ)) (g + 1) true false
    set stA := (positionCouple people fpid stc c (curX + (w : ℚ) / 2)
      (y + (CONFIG.VERTICAL_GAP : ℚ) + (CONFIG.NODE_HEIGHT : ℚ)) (g + 1) true false).2
      with hstA
    have hcwq : (calculateCoupleWidth c (getSpouse c people) : ℚ) ≤ (w : ℚ) := by
      exact_mod_cast hcwle
    have hwq : (0 : ℚ) ≤ (w : ℚ) := by positivity
    have hgapq : (CONFIG.HORIZONTAL_GAP : ℚ) = 60 := by norm_num [CONFIG.HORIZONTAL_GAP]
    have hvnq : (0 : ℚ) < (CONFIG.VERTICAL_GAP : ℚ) + (CONFIG.NODE_HEIGHT : ℚ) := by
      norm_num [CONFIG.VERTICAL_GAP, CONFIG.NODE_HEIGHT]
    have hmain : ∀ (stB : LayoutState), stB.nodes = stA.nodes →
        stB.positioned = stA.positioned →
        (∃ cnew2, stB.connections = stA.connections ++ cnew2) →
        ∃ new cnew,
        (pdFold people fpid p cX y
            (y + (CONFIG.VERTICAL_GAP : ℚ) + (CONFIG.NODE_HEIGHT : ℚ)) g r t
            (positionDescendants people fpid r stB c
              (positionCouple people fpid stc c (curX + (w : ℚ) / 2)
                (y + (CONFIG.VERTICAL_GAP : ℚ) + (CONFIG.NODE_HEIGHT : ℚ)) (g + 1) true
                false).1.centerX
              (y + (CONFIG.VERTICAL_GAP : ℚ) + (CONFIG.NODE_HEIGHT : ℚ)) (g + 1))
            (curX + (w : ℚ) + (CONFIG.HORIZONTAL_GAP : ℚ))).nodes = stc.nodes ++ new ∧
        (pdFold people fpid p cX y
            (y + (CONFIG.VERTICAL_GAP : ℚ) + (CONFIG.NODE_HEIGHT : ℚ)) g r t
            (positionDescendants people fpid r stB c
              (positionCouple people fpid stc c (curX + (w : ℚ) / 2)
                (y + (CONFIG.VERTICAL_GAP : ℚ) + (CONFIG.NODE_HEIGHT : ℚ)) (g + 1) true
                false).1.centerX
              (y + (CONFIG.VERTICAL_GAP : ℚ) + (CONFIG.NODE_HEIGHT : ℚ)) (g + 1))
            (curX + (w : ℚ) + (CONFIG.HORIZONTAL_GAP : ℚ))).connections =
          stc.connections ++ cnew ∧
        stc.positioned ⊆ (pdFold people fpid p cX y
            (y + (CONFIG.VERTICAL_GAP : ℚ) + (CONFIG.NODE_HEIGHT : ℚ)) g r t
            (positionDescendants people fpid r stB c
              (positionCouple people fpid stc c (curX + (w : ℚ) / 2)
                (y + (CONFIG.VERTICAL_GAP : ℚ) + (CONFIG.NODE_HEIGHT : ℚ)) (g + 1) true
                false).1.centerX
              (y + (CONFIG.VERTICAL_GAP : ℚ) + (CONFIG.NODE_HEIGHT : ℚ)) (g + 1))
            (curX + (w : ℚ) + (CONFIG.HORIZONTAL_GAP : ℚ))).positioned ∧
        (∀ x ∈ (pdFold people fpid p cX y
            (y + (CONFIG.VERTICAL_GAP : ℚ) + (CONFIG.NODE_HEIGHT : ℚ)) g r t
            (positionDescendants people fpid r stB c
              (positionCouple people fpid stc c (curX + (w : ℚ) / 2)
                (y + (CONFIG.VERTICAL_GAP : ℚ) + (CONFIG.NODE_HEIGHT : ℚ)) (g + 1) true
                false).1.centerX
              (y + (CONFIG.VERTICAL_GAP : ℚ) + (CONFIG.NODE_HEIGHT : ℚ)) (g + 1))
            (curX + (w : ℚ) + (CONFIG.HORIZONTAL_GAP : ℚ))).positioned,
          x ∈ stc.positioned ∨ x ∈ new.map (fun n => n.person.id)) ∧
        new.Pairwise (fun n m => n.y = m.y → xDisjoint n m) ∧
        (∀ n ∈ new,
          y + (CONFIG.VERTICAL_GAP : ℚ) + (CONFIG.NODE_HEIGHT : ℚ) ≤ n.y ∧
          g + 1 ≤ n.generation ∧ n.generation ≤ g + (r : Int) + 1 ∧
          n.height = CONFIG.NODE_HEIGHT ∧
          curX ≤ nodeLo n ∧
          nodeHi n ≤ curX + (sumWithGaps CONFIG.HORIZONTAL_GAP
            (((c, w) :: t).map (fun cw => cw.2)) : ℚ) ∧
          n.person.id ∉ stc.positioned ∧
          n.person.id ∈ (pdFold people fpid p cX y
            (y + (CONFIG.VERTICAL_GAP : ℚ) + (CONFIG.NODE_HEIGHT : ℚ)) g r t
            (positionDescendants people fpid r stB c
              (positionCouple people fpid stc c (curX + (w : ℚ) / 2)
                (y + (CONFIG.VERTICAL_GAP : ℚ) + (CONFIG.NODE_HEIGHT : ℚ)) (g + 1) true
                false).1.centerX
              (y + (CONFIG.VERTICAL_GAP : ℚ) + (CONFIG.NODE_HEIGHT : ℚ)) (g + 1))
            (curX + (w : ℚ) + (CONFIG.HORIZONTAL_GAP : ℚ))).positioned ∧
          n.isFocused = (n.person.id == fpid) ∧
          (n.isSpouse = true → n.person.id ≠ fpid)) ∧
        (new.map (fun n => n.person.id)).Nodup := by
      intro stB hBn hBp hBc
      obtain ⟨cnew2, hBc⟩ := hBc
      obtain ⟨new2, cnew3, hn2, hc2, hsub2, htrack2, hpw2, hprops2, hnodup2⟩ :=
        hrec stB c
          (positionCouple people fpid stc c (curX + (w : ℚ) / 2)
            (y + (CONFIG.VERTICAL_GAP : ℚ) + (CONFIG.NODE_HEIGHT : ℚ)) (g + 1) true
            false).1.centerX
          (y + (CONFIG.VERTICAL_GAP : ℚ) + (CONFIG.NODE_HEIGHT : ℚ)) (g + 1)
      have hsubB : ∀ x ∈ P0, x ∈ stB.positioned := fun x hx => hBp ▸ hsub1 (hP0 x hx)
      have hcidB : c.id ∈ stB.positioned := hBp ▸ hpid1
      have hspB : ∀ sp, getSpouse c people = some sp → sp.id ∈ stB.positioned :=
        fun sp h => hBp ▸ hsp1 sp h
      have hBle := pdBound_le_cswGo people r c P0 stB.positioned hlc hc0 hsubB hcidB hspB
      have hBw : pdBound people r c stB.positioned ≤ w := le_trans hBle hcswle
      have hBwq : (pdBound people r c stB.positioned : ℚ) ≤ (w : ℚ) := by
        exact_mod_cast hBw
      have hsubC : ∀ x ∈ P0, x ∈ (positionDescendants people fpid r stB c
          (positionCouple people fpid stc c (curX + (w : ℚ) / 2)
            (y + (CONFIG.VERTICAL_GAP : ℚ) + (CONFIG.NODE_HEIGHT : ℚ)) (g + 1) true
            false).1.centerX
          (y + (CONFIG.VERTICAL_GAP : ℚ) + (CONFIG.NODE_HEIGHT : ℚ)) (g + 1)).positioned :=
        fun x hx => hsub2 (hsubB x hx)
      obtain ⟨new3, cnew4, hn3, hc3, hsub3, htrack3, hpw3, hprops3, hnodup3⟩ :=
        ihl P0 (positionDescendants people fpid r stB c
          (positionCouple people fpid stc c (curX + (w : ℚ) / 2)
            (y + (CONFIG.VERTICAL_GAP : ℚ) + (CONFIG.NODE_HEIGHT : ℚ)) (g + 1) true
            false).1.centerX
          (y + (CONFIG.VERTICAL_GAP : ℚ) + (CONFIG.NODE_HEIGHT : ℚ)) (g + 1))
          (curX + (w : ℚ) + (CONFIG.HORIZONTAL_GAP : ℚ)) hsubC hfacts_t
      have hnew1_extent : ∀ n ∈ new1, curX ≤ nodeLo n ∧ nodeHi n ≤ curX + (w : ℚ) := by
        intro n hn
        obtain ⟨_, _, _, hlo, hhi, _⟩ := hprops1 n hn
        constructor
        · linarith
        · linarith
      have hnew2_extent : ∀ n ∈ new2, curX ≤ nodeLo n ∧ nodeHi n ≤ curX + (w : ℚ) := by
        intro n hn
        obtain ⟨_, _, _, _, hlo, hhi, _⟩ := hprops2 n hn
        rw [hcx1] at hlo hhi
        constructor
        · linarith
        · linarith
      have hnew3_extent : ∀ n ∈ new3,
          curX + (w : ℚ) + (CONFIG.HORIZONTAL_GAP : ℚ) ≤ nodeLo n ∧
          nodeHi n ≤ curX + (w : ℚ) + (CONFIG.HORIZONTAL_GAP : ℚ) +
            (sumWithGaps CONFIG.HORIZONTAL_GAP (t.map (fun cw => cw.2)) : ℚ) := by
        intro n hn
        obtain ⟨_, _, _, _, hlo, hhi, _⟩ := hprops3 n hn
        exact ⟨hlo, hhi⟩
      have hnew1_y : ∀ n ∈ new1,
          n.y = y + (CONFIG.VERTICAL_GAP : ℚ) + (CONFIG.NODE_HEIGHT : ℚ) :=
        fun n hn => (hprops1 n hn).1
      have hnew2_y : ∀ n ∈ new2,
          y + (CONFIG.VERTICAL_GAP : ℚ) + (CONFIG.NODE_HEIGHT : ℚ) +
            (CONFIG.VERTICAL_GAP : ℚ) + (CONFIG.NODE_HEIGHT : ℚ) ≤ n.y := by
        intro n hn
        have := (hprops2 n hn).1
        linarith
      have hnew3_y : ∀ n ∈ new3,
          y + (CONFIG.VERTICAL_GAP : ℚ) + (CONFIG.NODE_HEIGHT : ℚ) ≤ n.y :=
        fun n hn => (hprops3 n hn).1
      have hStail : ∀ n ∈ new3,
          nodeHi n ≤ curX + (sumWithGaps CONFIG.HORIZONTAL_GAP
            (((c, w) :: t).map (fun cw => cw.2)) : ℚ) := by
        intro n hn
        by_cases ht : t = []
        · subst ht
          rw [pdFold_nil] at hn3
          rw [append_eq_self_nil hn3] at hn
          exact absurd hn (List.not_mem_nil n)
        · have htm : t.map (fun cw => cw.2) ≠ [] := by
            simpa using ht
          have hS := sumWithGaps_cons_of_ne CONFIG.HORIZONTAL_GAP w
            (t.map (fun cw => cw.2)) htm
          have hSq : (sumWithGaps CONFIG.HORIZONTAL_GAP
              (((c, w) :: t).map (fun cw => cw.2)) : ℚ) =
              (w : ℚ) + (CONFIG.HORIZONTAL_GAP : ℚ) +
              (sumWithGaps CONFIG.HORIZONTAL_GAP (t.map (fun cw => cw.2)) : ℚ) := by
            have hmc : ((c, w) :: t).map (fun cw => cw.2) =
                w :: t.map (fun cw => cw.2) := by simp
            rw [hmc, hS]
            push_cast
            ring
          rw [hSq]
          have := (hnew3_extent n hn).2
          linarith
      have hShead : (w : ℚ) ≤ (sumWithGaps CONFIG.HORIZONTAL_GAP
          (((c, w) :: t).map (fun cw => cw.2)) : ℚ) := by
        have := sumWithGaps_cons_le CONFIG.HORIZONTAL_GAP w (t.map (fun cw => cw.2))
        have h2 : sumWithGaps CONFIG.HORIZONTAL_GAP (((c, w) :: t).map (fun cw => cw.2)) =
            sumWithGaps CONFIG.HORIZONTAL_GAP (w :: t.map (fun cw => cw.2)) := by
          rw [List.map_cons]
        rw [h2]
        exact_mod_cast this
      refine ⟨new1 ++ (new2 ++ new3), cnew1 ++ (cnew2 ++ (cnew3 ++ cnew4)),
        ?_, ?_, ?_, ?_, ?_, ?_, ?_⟩
      · rw [hn3, hn2, hBn, hn1]
        simp [List.append_assoc]
      · rw [hc3, hc2, hBc, hc1]
        simp [List.append_assoc]
      · intro x hx
        exact hsub3 (hsub2 (hBp ▸ hsub1 hx))
      · intro x hx
        rcases htrack3 x hx with h4 | h4
        · rcases htrack2 x h4 with h5 | h5
          · rw [hBp] at h5
            rcases htrack1 x h5 with h6 | h6
            · exact Or.inl h6
            · right
              simp only [List.map_append, List.mem_append]
              exact Or.inl h6
          · right
            simp only [List.map_append, List.mem_append]
            exact Or.inr (Or.inl h5)
        · right
          simp only [List.map_append, List.mem_append]
          exact Or.inr (Or.inr h4)
      · rw [List.pairwise_append]
        refine ⟨List.Pairwise.imp ?_ hpw1, ?_, ?_⟩
        · intro a b h
          exact fun _ => h
        · rw [List.pairwise_append]
          refine ⟨hpw2, hpw3, ?_⟩
          intro n hn m hm _
          have h1 := (hnew2_extent n hn).2
          have h2 := (hnew3_extent m hm).1
          rw [hgapq] at h2
          exact Or.inl (by linarith)
        · intro n hn m hm
          rcases List.mem_append.mp hm with hm2 | hm3
          · intro hy
            exfalso
            have h1 := hnew1_y n hn
            have h2 := hnew2_y m hm2
            rw [hy] at h1
            rw [h1] at h2
            linarith
          · intro _
            have h1 := (hnew1_extent n hn).2
            have h2 := (hnew3_extent m hm3).1
            rw [hgapq] at h2
            exact Or.inl (by linarith)
      · intro n hn
        rcases List.mem_append.mp hn with h1 | h23
        · obtain ⟨hy, hg2, hh, hlo, hhi, hpos, hpos2, _, _, hif, hisp⟩ := hprops1 n h1
          have hyy := hnew1_y n h1
          have hex := hnew1_extent n h1
          refine ⟨le_of_eq hyy.symm, by omega, by omega, hh, hex.1, ?_, hpos, ?_, hif, hisp⟩
          · linarith [hShead, hex.2]
          · apply hsub3
            apply hsub2
            rw [hBp]
            exact hpos2
        · rcases List.mem_append.mp h23 with h2 | h3
          · obtain ⟨hy2, hg1, hg2, hh, hlo, hhi, hpos, hpos2, hif, hisp⟩ := hprops2 n h2
            have hex := hnew2_extent n h2
            refine ⟨?_, by omega, by omega, hh, hex.1, ?_, ?_, hsub3 hpos2, hif, hisp⟩
            · linarith [hnew2_y n h2]
            · linarith [hShead, hex.2]
            · intro hmem
              apply hpos
              rw [hBp]
              exact hsub1 hmem
          · obtain ⟨hy3, hg1, hg2, hh, hlo, hhi, hpos, hpos2, hif, hisp⟩ := hprops3 n h3
            refine ⟨hy3, by omega, by omega, hh, ?_, hStail n h3, ?_, hpos2, hif, hisp⟩
            · rw [hgapq] at hlo
              linarith
            · intro hmem
              apply hpos
              apply hsub2
              rw [hBp]
              exact hsub1 hmem
      · simp only [List.map_append]
        rw [List.nodup_append, List.nodup_append]
        refine ⟨hnodup1, ⟨hnodup2, hnodup3, ?_⟩, ?_⟩
        · intro x hx2 hx3
          obtain ⟨n2, hn2m, hid2⟩ := List.mem_map.mp hx2
          obtain ⟨n3, hn3m, hid3⟩ := List.mem_map.mp hx3
          have := (hprops3 n3 hn3m).2.2.2.2.2.2.1
          rw [hid3] at this
          apply this
          rw [← hid2]
          exact (hprops2 n2 hn2m).2.2.2.2.2.2.2.1
        · intro x hx1 hx23
          obtain ⟨n1, hn1m, hid1⟩ := List.mem_map.mp hx1
          have hx1pos : x ∈ stA.positioned := by
            rw [← hid1]
            exact (hprops1 n1 hn1m).2.2.2.2.2.2.1
          rcases List.mem_append.mp hx23 with hx2 | hx3
          · obtain ⟨n2, hn2m, hid2⟩ := List.mem_map.mp hx2
            have := (hprops2 n2 hn2m).2.2.2.2.2.2.1
            rw [hid2] at this
            apply this
            rw [hBp]
            exact hx1pos
          · obtain ⟨n3, hn3m, hid3⟩ := List.mem_map.mp hx3
            have := (hprops3 n3 hn3m).2.2.2.2.2.2.1
            rw [hid3] at this
            apply this
            apply hsub2
            rw [hBp]
            exact hx1pos
    cases hfind : stA.nodes.find? (fun n => n.person.id == c.id) with
    | none =>
      have := hmain stA rfl rfl ⟨[], by simp⟩
      simpa [hfind] using this
    | some childNode =>
      have := hmain { stA with connections := stA.connections ++
        [{ id := "parent-child-" ++ p.id ++ "-" ++ c.id
           type := ConnectionType.parentChild
           «from» := ⟨cX, y + (CONFIG.NODE_HEIGHT : ℚ) / 2⟩
           «to» := ⟨childNode.x,
             y + (CONFIG.VERTICAL_GAP : ℚ) + (CONFIG.NODE_HEIGHT : ℚ) -
               (CONFIG.NODE_HEIGHT : ℚ) / 2⟩
           fromId := p.id
           toId := c.id }] } rfl rfl ⟨_, rfl⟩
      simpa [hfind] using this

/-! ### `positionDescendants` specification -/

theorem positionDescendants_spec (people : List Person) (fpid : String) :
    ∀ (r : Nat) (st : LayoutState) (c : Person) (ccX ccY : ℚ) (gg : Int),
      ∃ new cnew,
        (positionDescendants people fpid r st c ccX ccY gg).nodes = st.nodes ++ new ∧
        (positionDescendants people fpid r st c ccX ccY gg).connections =
          st.connections ++ cnew ∧
        st.positioned ⊆ (positionDescendants people fpid r st c ccX ccY gg).positioned ∧
        (∀ x ∈ (positionDescendants people fpid r st c ccX ccY gg).positioned,
          x ∈ st.positioned ∨ x ∈ new.map (fun n => n.person.id)) ∧
        new.Pairwise (fun n m => n.y = m.y → xDisjoint n m) ∧
        (∀ n ∈ new,
          ccY + (CONFIG.VERTICAL_GAP : ℚ) + (CONFIG.NODE_HEIGHT : ℚ) ≤ n.y ∧
          gg + 1 ≤ n.generation ∧ n.generation ≤ gg + (r : Int) ∧
          n.height = CONFIG.NODE_HEIGHT ∧
          ccX - (pdBound people r c st.positioned : ℚ) / 2 ≤ nodeLo n ∧
          nodeHi n ≤ ccX + (pdBound people r c st.positioned : ℚ) / 2 ∧
          n.person.id ∉ st.positioned ∧
          n.person.id ∈ (positionDescendants people fpid r st c ccX ccY gg).positioned ∧
          n.isFocused = (n.person.id == fpid) ∧
          (n.isSpouse = true → n.person.id ≠ fpid)) ∧
        (new.map (fun n => n.person.id)).Nodup := by
  intro r
  induction r with
  | zero =>
    intro st c ccX ccY gg
    rw [positionDescendants_zero]
    exact ⟨[], [], by simp, by simp, fun _ h => h, fun x hx => Or.inl hx,
      List.Pairwise.nil, fun n hn => absurd hn (List.not_mem_nil n), by simp⟩
  | succ r ih =>
    intro st c ccX ccY gg
    rw [positionDescendants_succ_fold]
    by_cases hch : pdChildren people c st.positioned = []
    · rw [if_pos hch]
      exact ⟨[], [], by simp, by simp, fun _ h => h, fun x hx => Or.inl hx,
        List.Pairwise.nil, fun n hn => absurd hn (List.not_mem_nil n), by simp⟩
    · rw [if_neg hch]
      have hfacts : ∀ cw ∈ (pdChildren people c st.positioned).zip
          ((pdChildren people c st.positioned).map (pdAdjusted people r st.positioned)),
          lookupPerson people cw.1.id = some cw.1 ∧ cw.1.id ∉ st.positioned ∧
          calculateCoupleWidth cw.1 (getSpouse cw.1 people) ≤ cw.2 ∧
          cswGo people r cw.1.id st.positioned ≤ cw.2 := by
        intro cw hcw
        obtain ⟨hmem, hw⟩ := mem_zip_map (pdAdjusted people r st.positioned)
          (pdChildren people c st.positioned) cw.1 cw.2 hcw
        obtain ⟨hl, hnp, _⟩ := pdChildren_facts cw.1 hmem
        refine ⟨hl, hnp, ?_, ?_⟩
        · rw [hw]
          exact le_max_right _ _
        · rw [hw]
          exact le_trans
            (le_of_eq (calculateSubtreeWidth_zero_eq people r cw.1.id st.positioned).symm)
            (le_max_left _ _)
      obtain ⟨new, cnew, h1, h2, h3, h4, h5, h6, h7⟩ :=
        pdFold_spec people fpid c ccX ccY gg r ih
          ((pdChildren people c st.positioned).zip
            ((pdChildren people c st.positioned).map (pdAdjusted people r st.positioned)))
          st.positioned st
          (ccX - ((((pdChildren people c st.positioned).map
              (pdAdjusted people r st.positioned)).sum +
            ((pdChildren people c st.positioned).length - 1) *
              CONFIG.HORIZONTAL_GAP : Nat) : ℚ) / 2)
          (fun _ hx => hx) hfacts
      have hB : pdBound people (r + 1) c st.positioned =
          ((pdChildren people c st.positioned).map (pdAdjusted people r st.positioned)).sum +
            ((pdChildren people c st.positioned).length - 1) * CONFIG.HORIZONTAL_GAP := by
        simp only [pdBound_succ]
        rw [if_neg hch]
      have hSeq : sumWithGaps CONFIG.HORIZONTAL_GAP
          (((pdChildren people c st.positioned).zip
            ((pdChildren people c st.positioned).map
              (pdAdjusted people r st.positioned))).map (fun cw => cw.2)) =
          ((pdChildren people c st.positioned).map (pdAdjusted people r st.positioned)).sum +
            ((pdChildren people c st.positioned).length - 1) * CONFIG.HORIZONTAL_GAP := by
        rw [zip_map_snd (pdAdjusted people r st.positioned) (pdChildren people c st.positioned),
          sumWithGaps_eq, List.length_map]
      refine ⟨new, cnew, h1, h2, h3, h4, h5, ?_, h7⟩
      intro n hn
      obtain ⟨hy, hg1, hg2, hh, hlo, hhi, hpos, hpos2, hif, hisp⟩ := h6 n hn
      rw [hSeq] at hhi
      have hBq : ((pdBound people (r + 1) c st.positioned : Nat) : ℚ) =
          ((((pdChildren people c st.positioned).map
              (pdAdjusted people r st.positioned)).sum +
            ((pdChildren people c st.positioned).length - 1) *
              CONFIG.HORIZONTAL_GAP : Nat) : ℚ) := by
        exact_mod_cast hB
      refine ⟨hy, hg1, ?_, hh, ?_, ?_, hpos, hpos2, hif, hisp⟩
      · push_cast
        linarith
      · rw [hBq]
        linarith
      · rw [hBq]
        linarith

/-! ### `computeLayout` master specification -/

theorem computeLayout_spec (fpid : String) (t : FamilyTree) :
    ((computeLayout fpid t).nodes.map (fun n => n.person.id)).Nodup ∧
    (computeLayout fpid t).nodes.Pairwise (fun n m => n.y = m.y → xDisjoint n m) ∧
    (∀ n ∈ (computeLayout fpid t).nodes,
      -(CONFIG.MAX_LAYERS_UP : Int) ≤ n.generation ∧
      n.generation ≤ (CONFIG.MAX_LAYERS_DOWN : Int) ∧
      n.isFocused = (n.person.id == fpid) ∧
      (n.isSpouse = true → n.person.id ≠ fpid)) ∧
    (∀ fp, lookupPerson t.people fpid = some fp →
      ∃ n, (computeLayout fpid t).focusedNode = some n ∧ n.isFocused = true) := by
  cases hl : lookupPerson t.people fpid with
  | none =>
    simp only [computeLayout, hl]
    refine ⟨by simp, List.Pairwise.nil, fun n hn => absurd hn (List.not_mem_nil n), ?_⟩
    intro fp hfp
    exact absurd hfp (by simp)
  | some fp =>
    simp only [computeLayout, hl]
    obtain ⟨hcx1, new1, cnew1, hn1, hc1, _, hsub1, hpid1, hsp1, htrack1, hpw1, hprops1,
      hnodup1, hpush1⟩ :=
      positionCouple_spec t.people fpid ⟨[], [], []⟩ fp 0 0 0 false false
    set st1 := (positionCouple t.people fpid ⟨[], [], []⟩ fp 0 0 0 false false).2 with hst1
    obtain ⟨new2, cnew2, hn2, hc2, hsub2, htrack2, hpw2, hprops2, hnodup2⟩ :=
      positionDescendants_spec t.people fpid CONFIG.MAX_LAYERS_DOWN st1 fp
        (positionCouple t.people fpid ⟨[], [], []⟩ fp 0 0 0 false false).1.centerX 0 0
    set st2 := positionDescendants t.people fpid CONFIG.MAX_LAYERS_DOWN st1 fp
      (positionCouple t.people fpid ⟨[], [], []⟩ fp 0 0 0 false false).1.centerX 0 0
      with hst2
    obtain ⟨new3, cnew3, hn3, hc3, hsub3, htrack3, hpw3, hprops3, hnodup3⟩ :=
      positionAncestors_spec t.people fpid CONFIG.MAX_LAYERS_UP st2 fpid
        (positionCouple t.people fpid ⟨[], [], []⟩ fp 0 0 0 false false).1.centerX 0 0
    set st3 := positionAncestors t.people fpid CONFIG.MAX_LAYERS_UP st2 fpid
      (positionCouple t.people fpid ⟨[], [], []⟩ fp 0 0 0 false false).1.centerX 0 0
      with hst3
    have hnodes : st3.nodes = new1 ++ new2 ++ new3 := by
      rw [hn3, hn2, hn1]
      simp
    have hvnq : (0 : ℚ) < (CONFIG.VERTICAL_GAP : ℚ) + (CONFIG.NODE_HEIGHT : ℚ) := by
      norm_num [CONFIG.VERTICAL_GAP, CONFIG.NODE_HEIGHT]
    have hnew1_id_pos : ∀ n ∈ new1, n.person.id ∈ st1.positioned :=
      fun n hn => (hprops1 n hn).2.2.2.2.2.2.1
    have hnew2_id_pos : ∀ n ∈ new2, n.person.id ∈ st2.positioned :=
      fun n hn => (hprops2 n hn).2.2.2.2.2.2.2.1
    have hnew2_id_new : ∀ n ∈ new2, n.person.id ∉ st1.positioned :=
      fun n hn => (hprops2 n hn).2.2.2.2.2.2.1
    have hnew3_id_new : ∀ n ∈ new3, n.person.id ∉ st2.positioned :=
      fun n hn => (hprops3 n hn).2.2.2.2.1
    have hnodup : (st3.nodes.map (fun n => n.person.id)).Nodup := by
      rw [hnodes]
      simp only [List.map_append]
      rw [List.append_assoc, List.nodup_append, List.nodup_append]
      refine ⟨hnodup1, ⟨hnodup2, hnodup3, ?_⟩, ?_⟩
      · intro x hx2 hx3
        obtain ⟨n2, hn2m, hid2⟩ := List.mem_map.mp hx2
        obtain ⟨n3, hn3m, hid3⟩ := List.mem_map.mp hx3
        apply hid3 ▸ hnew3_id_new n3 hn3m
        rw [← hid2]
        exact hnew2_id_pos n2 hn2m
      · intro x hx1 hx23
        obtain ⟨n1, hn1m, hid1⟩ := List.mem_map.mp hx1
        have hx1p : x ∈ st1.positioned := hid1 ▸ hnew1_id_pos n1 hn1m
        rcases List.mem_append.mp hx23 with hx2 | hx3
        · obtain ⟨n2, hn2m, hid2⟩ := List.mem_map.mp hx2
          exact (hid2 ▸ hnew2_id_new n2 hn2m) hx1p
        · obtain ⟨n3, hn3m, hid3⟩ := List.mem_map.mp hx3
          exact (hid3 ▸ hnew3_id_new n3 hn3m) (hsub2 hx1p)
    have hpw : st3.nodes.Pairwise (fun n m => n.y = m.y → xDisjoint n m) := by
      rw [hnodes, List.append_assoc, List.pairwise_append]
      refine ⟨List.Pairwise.imp (fun h => fun _ => h) hpw1, ?_, ?_⟩
      · rw [List.pairwise_append]
        refine ⟨hpw2, hpw3, ?_⟩
        intro n hn m hm hy
        exfalso
        have h2 := (hprops2 n hn).1
        have h3 := (hprops3 m hm).1
        rw [hy] at h2
        linarith
      · intro n hn m hm
        rcases List.mem_append.mp hm with hm2 | hm3
        · intro hy
          exfalso
          have h1 := (hprops1 n hn).1
          have h2 := (hprops2 m hm2).1
          rw [← hy, h1] at h2
          linarith
        · intro hy
          exfalso
          have h1 := (hprops1 n hn).1
          have h3 := (hprops3 m hm3).1
          rw [← hy, h1] at h3
          linarith
    have hgen : ∀ n ∈ st3.nodes,
        -(CONFIG.MAX_LAYERS_UP : Int) ≤ n.generation ∧
        n.generation ≤ (CONFIG.MAX_LAYERS_DOWN : Int) ∧
        n.isFocused = (n.person.id == fpid) ∧
        (n.isSpouse = true → n.person.id ≠ fpid) := by
      intro n hn
      rw [hnodes] at hn
      rcases List.mem_append.mp hn with hn12 | hn3
      · rcases List.mem_append.mp hn12 with hn1m | hn2m
        · obtain ⟨_, hg, _, _, _, _, _, _, _, hif, hisp⟩ := hprops1 n hn1m
          refine ⟨?_, ?_, hif, hisp⟩
          · rw [hg]; decide
          · rw [hg]; decide
        · obtain ⟨_, hg1, hg2, _, _, _, _, _, hif, hisp⟩ := hprops2 n hn2m
          refine ⟨?_, ?_, hif, hisp⟩
          · have h4 : (0 : Int) + 1 ≤ n.generation := hg1
            have : -(CONFIG.MAX_LAYERS_UP : Int) ≤ 1 := by decide
            omega
          · have h4 : n.generation ≤ (0 : Int) + (CONFIG.MAX_LAYERS_DOWN : Int) := hg2
            omega
      · obtain ⟨_, hg1, hg2, _, _, _, hif, hisp⟩ := hprops3 n hn3
        refine ⟨?_, ?_, hif, hisp⟩
        · have h4 : (0 : Int) - (CONFIG.MAX_LAYERS_UP : Int) ≤ n.generation := hg1
          omega
        · have h4 : n.generation ≤ (0 : Int) - 1 := hg2
          have : (0 : Int) ≤ (CONFIG.MAX_LAYERS_DOWN : Int) := by decide
          omega
    refine ⟨hnodup, hpw, hgen, ?_⟩
    intro fp2 hfp2
    have hfpid : fp.id = fpid := lookupPerson_id hl
    have hfpush : ∃ n ∈ new1, n.person.id = fp.id := by
      apply hpush1
      simp
    obtain ⟨nf, hnf, hnfid⟩ := hfpush
    have hnfmem : nf ∈ st3.nodes := by
      rw [hnodes]
      simp only [List.mem_append]
      exact Or.inl (Or.inl hnf)
    have hnffoc : nf.isFocused = true := by
      have := (hprops1 nf hnf).2.2.2.2.2.2.2.2.2.1
      rw [this, hnfid, hfpid]
      simp
    have hsome : (st3.nodes.find? (fun n => n.isFocused)).isSome := by
      rw [List.find?_isSome]
      exact ⟨nf, hnfmem, hnffoc⟩
    obtain ⟨m, hm⟩ := Option.isSome_iff_exists.mp hsome
    refine ⟨m, hm, ?_⟩
    have := List.find?_some hm
    simpa using this

/-- C1: no-overlap — in every `computeLayout` result, any two distinct layout
nodes sharing the same `y` coordinate have horizontal extents
`[x - width/2, x + width/2]` that intersect at most in a boundary point. -/
theorem claim_C1_no_overlap :
    ∀ (fpid : String) (t : FamilyTree),
      (computeLayout fpid t).nodes.Pairwise (fun n m => n.y = m.y → xDisjoint n m) :=
  fun fpid t => (computeLayout_spec fpid t).2.1

/-- C3: missing-focus terminal state — when the focused id does not resolve in
the people map, `computeLayout` returns the exact empty result with zero
bounds and `focusedNode = none`; whenever it does resolve, `focusedNode` is
`some` node with `isFocused = true`. -/
theorem claim_C3_missing_focus :
    ∀ (fpid : String) (t : FamilyTree),
      (lookupPerson t.people fpid = none →
        computeLayout fpid t =
          { nodes := []
            connections := []
            bounds := ⟨0, 0, 0, 0, 0, 0⟩
            focusedNode := none }) ∧
      (lookupPerson t.people fpid ≠ none →
        ∃ n, (computeLayout fpid t).focusedNode = some n ∧ n.isFocused = true) := by
  intro fpid t
  constructor
  · intro hl
    simp only [computeLayout, hl]
  · intro hl
    cases hfp : lookupPerson t.people fpid with
    | none => exact absurd hfp hl
    | some fp => exact (computeLayout_spec fpid t).2.2.2 fp hfp

/-- Witness for C3 at the single-person tree: the id `"zz"` is absent and
yields the empty result, while `"p1"` is present and yields a focused node. -/
theorem claim_C3_missing_focus_witness :
    computeLayout "zz" soloTree =
      { nodes := []
        connections := []
        bounds := ⟨0, 0, 0, 0, 0, 0⟩
        focusedNode := none } ∧
    ∃ n, (computeLayout "p1" soloTree).focusedNode = some n ∧ n.isFocused = true :=
  ⟨(claim_C3_missing_focus "zz" soloTree).1 (by decide),
   (claim_C3_missing_focus "p1" soloTree).2 (by decide)⟩

/-- C4: idempotent placement — each person id appears as at most one layout
node in every `computeLayout` result. -/
theorem claim_C4_idempotent_placement :
    ∀ (fpid : String) (t : FamilyTree),
      ((computeLayout fpid t).nodes.map (fun n => n.person.id)).Nodup :=
  fun fpid t => (computeLayout_spec fpid t).1

/-- C5: depth bound — every layout node's generation index lies in the closed
interval `[-MAX_LAYERS_UP, MAX_LAYERS_DOWN]`. -/
theorem claim_C5_depth_bound :
    ∀ (fpid : String) (t : FamilyTree),
      (computeLayout fpid t).nodes.Forall (fun n =>
        -(CONFIG.MAX_LAYERS_UP : Int) ≤ n.generation ∧
        n.generation ≤ (CONFIG.MAX_LAYERS_DOWN : Int)) := by
  intro fpid t
  rw [List.forall_iff_forall_mem]
  intro n hn
  exact ⟨((computeLayout_spec fpid t).2.2.1 n hn).1,
    ((computeLayout_spec fpid t).2.2.1 n hn).2.1⟩

theorem positionPair_isSpouse (fpid : String) (st : LayoutState) (L R : Person)
    (tw : Nat) (cX cY : ℚ) (g : Int) (ic ip : Bool) :
    ((positionPair fpid st L R tw cX cY g ic ip).2.nodes.drop st.nodes.length).Forall
      (fun n => n.isSpouse = (n.person.id != fpid)) := by
  unfold positionPair
  by_cases h1 : L.id ∈ st.positioned
  · simp only [if_pos h1]
    by_cases h2 : R.id ∈ st.positioned
    · simp only [if_pos h2, List.drop_length]
      trivial
    · simp only [if_neg h2, List.drop_left]
      exact rfl
  · simp only [if_neg h1]
    by_cases h2 : R.id ∈ L.id :: st.positioned
    · simp only [if_pos h2, List.drop_left]
      exact rfl
    · simp only [if_neg h2, List.append_assoc, List.drop_left]
      exact ⟨rfl, rfl⟩

/-- C10: `isSpouse` flag semantics — the focused person's node is never
flagged as a spouse, a person placed alone (no resolvable spouse, or spouse
already positioned) gets `isSpouse = false`, and when a couple is placed
together every member whose id differs from the focused id gets
`isSpouse = true` (both members of a non-focus couple are flagged). -/
theorem claim_C10_isSpouse_flag :
    (∀ (fpid : String) (t : FamilyTree),
      (computeLayout fpid t).nodes.Forall (fun n =>
        n.person.id = fpid → n.isSpouse = false)) ∧
    (∀ (people : List Person) (fpid : String) (st : LayoutState) (p : Person)
        (cX cY : ℚ) (g : Int) (ic ip : Bool),
      ((positionCouple people fpid st p cX cY g ic ip).2.nodes.drop
          st.nodes.length).Forall (fun n =>
        n.isSpouse =
          match getSpouse p people with
          | none => false
          | some sp =>
            if sp.id ∈ st.positioned then false else (n.person.id != fpid))) := by
  constructor
  · intro fpid t
    rw [List.forall_iff_forall_mem]
    intro n hn hid
    have h := ((computeLayout_spec fpid t).2.2.1 n hn).2.2.2
    cases hs : n.isSpouse with
    | false => rfl
    | true => exact absurd hid (h hs)
  · intro people fpid st p cX cY g ic ip
    cases hsp : getSpouse p people with
    | none =>
      simp only [positionCouple, hsp]
      unfold positionSingle
      by_cases hp : p.id ∈ st.positioned
      · simp only [if_pos hp, List.drop_length]
        trivial
      · simp only [if_neg hp, List.drop_left]
        exact rfl
    | some sp =>
      simp only [positionCouple, hsp]
      by_cases hpos : sp.id ∈ st.positioned
      · simp only [if_pos hpos]
        unfold positionSingle
        by_cases hp : p.id ∈ st.positioned
        · simp only [if_pos hp, List.drop_length]
          trivial
        · simp only [if_neg hp, List.drop_left]
          exact rfl
      · simp only [if_neg hpos]
        exact positionPair_isSpouse fpid st _ _ _ cX cY g ic ip

/-! ### Couple-invariant machinery for the spouse-symmetry analysis -/

theorem getSpouse_lookup {p q : Person} {people : List Person}
    (h : getSpouse p people = some q) : lookupPerson people q.id = some q := by
  unfold getSpouse at h
  cases hs : p.spouseId with
  | none =>
    simp [hs] at h
  | some sid =>
    simp only [hs] at h
    by_cases he : sid ≠ ""
    · rw [if_pos he] at h
      exact lookupPerson_self h
    · rw [if_neg he] at h
      exact absurd h (by simp)

theorem lookupPerson_unique {people : List Person} {q z : Person}
    (h1 : lookupPerson people q.id = some q) (h2 : lookupPerson people z.id = some z)
    (he : q.id = z.id) : q = z := by
  rw [he] at h1
  rw [h1] at h2
  exact Option.some.inj h2

theorem coupleInv_extend (A B : Person) (st st' : LayoutState)
    (hn : ∃ ns, st'.nodes = st.nodes ++ ns ∧
      ∀ n ∈ ns, n.person.id ≠ A.id ∧ n.person.id ≠ B.id)
    (hp : ∃ ids, st'.positioned = ids ++ st.positioned ∧ A.id ∉ ids ∧ B.id ∉ ids)
    (hc : ∃ cs, st'.connections = st.connections ++ cs ∧
      ∀ c ∈ cs, spouseConnAB A B c = false)
    (h : coupleInv A B st) : coupleInv A B st' := by
  obtain ⟨ns, hns, hnssafe⟩ := hn
  obtain ⟨ids, hids, hidsA, hidsB⟩ := hp
  obtain ⟨cs, hcs, hcssafe⟩ := hc
  obtain ⟨hiff, hposi, hnpos⟩ := h
  have hAmem : A.id ∈ st'.positioned ↔ A.id ∈ st.positioned := by
    rw [hids, List.mem_append]
    exact ⟨fun h => h.resolve_left hidsA, Or.inr⟩
  have hBmem : B.id ∈ st'.positioned ↔ B.id ∈ st.positioned := by
    rw [hids, List.mem_append]
    exact ⟨fun h => h.resolve_left hidsB, Or.inr⟩
  have hcount : st'.connections.countP (spouseConnAB A B) =
      st.connections.countP (spouseConnAB A B) := by
    rw [hcs, List.countP_append]
    have hz : cs.countP (spouseConnAB A B) = 0 := by
      rw [List.countP_eq_zero]
      intro c hcm
      simp [hcssafe c hcm]
    omega
  refine ⟨by rw [hAmem, hBmem]; exact hiff, ?_, ?_⟩
  · intro hA
    obtain ⟨⟨nA, hnA, nB, hnB, hprops⟩, hcnt⟩ := hposi (hAmem.mp hA)
    exact ⟨⟨nA, by rw [hns]; exact List.mem_append_left _ hnA, nB,
      by rw [hns]; exact List.mem_append_left _ hnB, hprops⟩,
      by rw [hcount]; exact hcnt⟩
  · intro hA
    obtain ⟨hnodes, hcnt⟩ := hnpos (fun hx => hA (hAmem.mpr hx))
    refine ⟨?_, by rw [hcount]; exact hcnt⟩
    intro n hnm
    rw [hns] at hnm
    rcases List.mem_append.mp hnm with h1 | h2
    · exact hnodes n h1
    · exact hnssafe n h2

theorem positionPair_couple_est (fpid : String) (st : LayoutState) (L R : Person)
    (tw : Nat) (cX cY : ℚ) (g : Int) (ic ip : Bool)
    (htw : calculateNodeWidth L.name + calculateNodeWidth R.name + CONFIG.SPOUSE_GAP = tw)
    (hL : L.id ∉ st.positioned) (hRst : R.id ∉ st.positioned) (hLR : L.id ≠ R.id) :
    ∃ nL nR c,
      (positionPair fpid st L R tw cX cY g ic ip).2.nodes = st.nodes ++ [nL, nR] ∧
      (positionPair fpid st L R tw cX cY g ic ip).2.connections =
        st.connections ++ [c] ∧
      (positionPair fpid st L R tw cX cY g ic ip).2.positioned =
        R.id :: L.id :: st.positioned ∧
      c.type = ConnectionType.spouse ∧ c.fromId = L.id ∧ c.toId = R.id ∧
      nL.person = L ∧ nR.person = R ∧ nL.y = cY ∧ nR.y = cY ∧
      nL.width = calculateNodeWidth L.name ∧ nR.width = calculateNodeWidth R.name ∧
      nR.x - nL.x = (calculateNodeWidth L.name : ℚ) / 2 + (CONFIG.SPOUSE_GAP : ℚ) +
        (calculateNodeWidth R.name : ℚ) / 2 := by
  have hR : R.id ∉ (L.id :: st.positioned) := by
    intro h
    rcases List.mem_cons.mp h with h1 | h2
    · exact hLR h1.symm
    · exact hRst h2
  refine ⟨createNode fpid L (cX - (tw : ℚ) / 2 + (calculateNodeWidth L.name : ℚ) / 2) cY g
      (L.id != fpid) ic ip,
    createNode fpid R (cX + (tw : ℚ) / 2 - (calculateNodeWidth R.name : ℚ) / 2) cY g
      (R.id != fpid) ic ip,
    { id := "spouse-" ++ L.id ++ "-" ++ R.id
      type := ConnectionType.spouse
      «from» := ⟨cX - (tw : ℚ) / 2 + (calculateNodeWidth L.name : ℚ) / 2 +
        (calculateNodeWidth L.name : ℚ) / 2, cY⟩
      «to» := ⟨cX + (tw : ℚ) / 2 - (calculateNodeWidth R.name : ℚ) / 2 -
        (calculateNodeWidth R.name : ℚ) / 2, cY⟩
      fromId := L.id
      toId := R.id },
    by simp [positionPair, hL, hR], by simp [positionPair, hL, hR],
    by simp [positionPair, hL, hR], rfl, rfl, rfl, rfl, rfl, rfl, rfl, rfl, rfl, ?_⟩
  show (cX + (tw : ℚ) / 2 - (calculateNodeWidth R.name : ℚ) / 2) -
      (cX - (tw : ℚ) / 2 + (calculateNodeWidth L.name : ℚ) / 2) =
    (calculateNodeWidth L.name : ℚ) / 2 + (CONFIG.SPOUSE_GAP : ℚ) +
      (calculateNodeWidth R.name : ℚ) / 2
  have htwq : (calculateNodeWidth L.name : ℚ) + (calculateNodeWidth R.name : ℚ) +
      (CONFIG.SPOUSE_GAP : ℚ) = (tw : ℚ) := by
    exact_mod_cast congrArg (fun n : Nat => (n : ℚ)) htw
  linarith

theorem positionSingle_preserves_coupleInv (A B : Person) (fpid : String)
    (st : LayoutState) (p : Person) (cX cY : ℚ) (g : Int) (ic ip : Bool)
    (hpA : p.id ≠ A.id) (hpB : p.id ≠ B.id)
    (h : coupleInv A B st) :
    coupleInv A B (positionSingle fpid st p cX cY g ic ip).2 := by
  by_cases hp : p.id ∈ st.positioned
  · have heq : (positionSingle fpid st p cX cY g ic ip).2 = st := by
      simp [positionSingle, hp]
    rw [heq]
    exact h
  · refine coupleInv_extend A B st _ ?_ ?_ ?_ h
    · refine ⟨[createNode fpid p cX cY g false ic ip], by simp [positionSingle, hp], ?_⟩
      intro n hn
      rcases List.mem_singleton.mp hn with rfl
      exact ⟨hpA, hpB⟩
    · refine ⟨[p.id], by simp [positionSingle, hp], ?_, ?_⟩
      · intro hmem
        exact hpA (List.mem_singleton.mp hmem).symm
      · intro hmem
        exact hpB (List.mem_singleton.mp hmem).symm
    · exact ⟨[], by simp [positionSingle, hp], fun c hc => absurd hc (List.not_mem_nil c)⟩

theorem positionPair_preserves_other (A B : Person) (fpid : String) (st : LayoutState)
    (L R : Person) (tw : Nat) (cX cY : ℚ) (g : Int) (ic ip : Bool)
    (hLA : L.id ≠ A.id) (hLB : L.id ≠ B.id) (hRA : R.id ≠ A.id) (hRB : R.id ≠ B.id)
    (h : coupleInv A B st) :
    coupleInv A B (positionPair fpid st L R tw cX cY g ic ip).2 := by
  have hconn : ∀ c : Connection, c.fromId = L.id → spouseConnAB A B c = false := by
    intro c hcf
    simp [spouseConnAB, hcf, hLA, hLB]
  by_cases hL : L.id ∈ st.positioned
  · by_cases hR : R.id ∈ st.positioned
    · refine coupleInv_extend A B st _
        ⟨[], by simp [positionPair, hL, hR], fun n hn => absurd hn (List.not_mem_nil n)⟩
        ⟨[], by simp [positionPair, hL, hR], by simp, by simp⟩
        ⟨[{ id := "spouse-" ++ L.id ++ "-" ++ R.id
            type := ConnectionType.spouse
            «from» := ⟨cX - (tw : ℚ) / 2 + (calculateNodeWidth L.name : ℚ) / 2 +
              (calculateNodeWidth L.name : ℚ) / 2, cY⟩
            «to» := ⟨cX + (tw : ℚ) / 2 - (calculateNodeWidth R.name : ℚ) / 2 -
              (calculateNodeWidth R.name : ℚ) / 2, cY⟩
            fromId := L.id
            toId := R.id }],
          by simp [positionPair, hL, hR], ?_⟩ h
      intro c hc
      rcases List.mem_singleton.mp hc with rfl
      exact hconn _ rfl
    · refine coupleInv_extend A B st _
        ⟨[createNode fpid R (cX + (tw : ℚ) / 2 - (calculateNodeWidth R.name : ℚ) / 2) cY g
            (R.id != fpid) ic ip],
          by simp [positionPair, hL, hR], ?_⟩
        ⟨[R.id], by simp [positionPair, hL, hR], ?_, ?_⟩
        ⟨[{ id := "spouse-" ++ L.id ++ "-" ++ R.id
            type := ConnectionType.spouse
            «from» := ⟨cX - (tw : ℚ) / 2 + (calculateNodeWidth L.name : ℚ) / 2 +
              (calculateNodeWidth L.name : ℚ) / 2, cY⟩
            «to» := ⟨cX + (tw : ℚ) / 2 - (calculateNodeWidth R.name : ℚ) / 2 -
              (calculateNodeWidth R.name : ℚ) / 2, cY⟩
            fromId := L.id
            toId := R.id }],
          by simp [positionPair, hL, hR], ?_⟩ h
      · intro n hn
        rcases List.mem_singleton.mp hn with rfl
        exact ⟨hRA, hRB⟩
      · intro hmem
        exact hRA (List.mem_singleton.mp hmem).symm
      · intro hmem
        exact hRB (List.mem_singleton.mp hmem).symm
      · intro c hc
        rcases List.mem_singleton.mp hc with rfl
        exact hconn _ rfl
  · by_cases hR : R.id ∈ (L.id :: st.positioned)
    · refine coupleInv_extend A B st _
        ⟨[createNode fpid L (cX - (tw : ℚ) / 2 + (calculateNodeWidth L.name : ℚ) / 2) cY g
            (L.id != fpid) ic ip],
          by simp [positionPair, hL, hR], ?_⟩
        ⟨[L.id], by simp [positionPair, hL, hR], ?_, ?_⟩
        ⟨[{ id := "spouse-" ++ L.id ++ "-" ++ R.id
            type := ConnectionType.spouse
            «from» := ⟨cX - (tw : ℚ) / 2 + (calculateNodeWidth L.name : ℚ) / 2 +
              (calculateNodeWidth L.name : ℚ) / 2, cY⟩
            «to» := ⟨cX + (tw : ℚ) / 2 - (calculateNodeWidth R.name : ℚ) / 2 -
              (calculateNodeWidth R.name : ℚ) / 2, cY⟩
            fromId := L.id
            toId := R.id }],
          by simp [positionPair, hL, hR], ?_⟩ h
      · intro n hn
        rcases List.mem_singleton.mp hn with rfl
        exact ⟨hLA, hLB⟩
      · intro hmem
        exact hLA (List.mem_singleton.mp hmem).symm
      · intro hmem
        exact hLB (List.mem_singleton.mp hmem).symm
      · intro c hc
        rcases List.mem_singleton.mp hc with rfl
        exact hconn _ rfl
    · refine coupleInv_extend A B st _
        ⟨[createNode fpid L (cX - (tw : ℚ) / 2 + (calculateNodeWidth L.name : ℚ) / 2) cY g
            (L.id != fpid) ic ip,
          createNode fpid R (cX + (tw : ℚ) / 2 - (calculateNodeWidth R.name : ℚ) / 2) cY g
            (R.id != fpid) ic ip],
          by simp [positionPair, hL, hR], ?_⟩
        ⟨[R.id, L.id], by simp [positionPair, hL, hR], ?_, ?_⟩
        ⟨[{ id := "spouse-" ++ L.id ++ "-" ++ R.id
            type := ConnectionType.spouse
            «from» := ⟨cX - (tw : ℚ) / 2 + (calculateNodeWidth L.name : ℚ) / 2 +
              (calculateNodeWidth L.name : ℚ) / 2, cY⟩
            «to» := ⟨cX + (tw : ℚ) / 2 - (calculateNodeWidth R.name : ℚ) / 2 -
              (calculateNodeWidth R.name : ℚ) / 2, cY⟩
            fromId := L.id
            toId := R.id }],
          by simp [positionPair, hL, hR], ?_⟩ h
      · intro n hn
        rcases List.mem_cons.mp hn with rfl | hn2
        · exact ⟨hLA, hLB⟩
        · rcases List.mem_singleton.mp hn2 with rfl
          exact ⟨hRA, hRB⟩
      · intro hmem
        rcases List.mem_cons.mp hmem with h1 | h2
        · exact hRA h1.symm
        · exact hLA (List.mem_singleton.mp h2).symm
      · intro hmem
        rcases List.mem_cons.mp hmem with h1 | h2
        · exact hRB h1.symm
        · exact hLB (List.mem_singleton.mp h2).symm
      · intro c hc
        rcases List.mem_singleton.mp hc with rfl
        exact hconn _ rfl

theorem positionCouple_preserves_coupleInv (people : List Person) (fpid : String)
    (A B : Person)
    (_hu : ∀ q ∈ people, lookupPerson people q.id = some q)
    (hgsA : getSpouse A people = some B)
    (hgsB : getSpouse B people = some A)
    (hne : A.id ≠ B.id)
    (hg : A.gender ≠ B.gender)
    (hthird : ∀ q ∈ people, q.id ≠ A.id → q.id ≠ B.id →
      getSpouse q people ≠ some A ∧ getSpouse q people ≠ some B) :
    ∀ (st : LayoutState) (p : Person) (cX cY : ℚ) (g : Int) (ic ip : Bool),
      lookupPerson people p.id = some p →
      coupleInv A B st →
      coupleInv A B (positionCouple people fpid st p cX cY g ic ip).2 := by
  have hlA : lookupPerson people A.id = some A := getSpouse_lookup hgsB
  have hlB : lookupPerson people B.id = some B := getSpouse_lookup hgsA
  intro st p cX cY g ic ip hlp hinv
  cases hsp : getSpouse p people with
  | none =>
    have hpA : p.id ≠ A.id := by
      intro he
      have hpe : p = A := lookupPerson_unique hlp hlA he
      rw [hpe, hgsA] at hsp
      exact absurd hsp (by simp)
    have hpB : p.id ≠ B.id := by
      intro he
      have hpe : p = B := lookupPerson_unique hlp hlB he
      rw [hpe, hgsB] at hsp
      exact absurd hsp (by simp)
    have hpc : positionCouple people fpid st p cX cY g ic ip =
        positionSingle fpid st p cX cY g ic ip := by
      simp [positionCouple, hsp]
    rw [hpc]
    exact positionSingle_preserves_coupleInv A B fpid st p cX cY g ic ip hpA hpB hinv
  | some q =>
    by_cases hqpos : q.id ∈ st.positioned
    · have hpc : positionCouple people fpid st p cX cY g ic ip =
          positionSingle fpid st p cX cY g ic ip := by
        simp [positionCouple, hsp, hqpos]
      rw [hpc]
      by_cases hpA : p.id = A.id
      · have hpe : p = A := lookupPerson_unique hlp hlA hpA
        have hqe : q = B := by
          rw [hpe, hgsA] at hsp
          exact (Option.some.inj hsp).symm
        have hApos : A.id ∈ st.positioned := hinv.1.mpr (hqe ▸ hqpos)
        have heq : (positionSingle fpid st p cX cY g ic ip).2 = st := by
          have : p.id ∈ st.positioned := hpA ▸ hApos
          simp [positionSingle, this]
        rw [heq]
        exact hinv
      · by_cases hpB : p.id = B.id
        · have hpe : p = B := lookupPerson_unique hlp hlB hpB
          have hqe : q = A := by
            rw [hpe, hgsB] at hsp
            exact (Option.some.inj hsp).symm
          have hBpos : B.id ∈ st.positioned := hinv.1.mp (hqe ▸ hqpos)
          have heq : (positionSingle fpid st p cX cY g ic ip).2 = st := by
            have : p.id ∈ st.positioned := hpB ▸ hBpos
            simp [positionSingle, this]
          rw [heq]
          exact hinv
        · exact positionSingle_preserves_coupleInv A B fpid st p cX cY g ic ip hpA hpB hinv
    · by_cases hpA : p.id = A.id
      · have hpe : p = A := lookupPerson_unique hlp hlA hpA
        subst hpe
        have hqe : q = B := by
          rw [hgsA] at hsp
          exact (Option.some.inj hsp).symm
        subst hqe
        have hAnp : p.id ∉ st.positioned := fun hx => hqpos (hinv.1.mp hx)
        obtain ⟨hiff, hposi, hnpos⟩ := hinv
        obtain ⟨hsafe, hcnt0⟩ := hnpos hAnp
        cases hgA : p.gender with
        | male =>
          have hpceq : positionCouple people fpid st p cX cY g ic ip =
              positionPair fpid st p q
                (calculateNodeWidth p.name + calculateNodeWidth q.name + CONFIG.SPOUSE_GAP)
                cX cY g ic ip := by
            simp [positionCouple, hsp, hqpos, hgA]
          rw [hpceq]
          obtain ⟨nL, nR, c, hn, hc, hpos, hct, hcf, hctt, hnLp, hnRp, hnLy, hnRy, hnLw,
            hnRw, hdx⟩ :=
            positionPair_couple_est fpid st p q
              (calculateNodeWidth p.name + calculateNodeWidth q.name + CONFIG.SPOUSE_GAP)
                cX cY g ic ip rfl hAnp hqpos hne
          refine ⟨?_, ?_, ?_⟩
          · rw [hpos]
            exact ⟨fun _ => List.mem_cons_self _ _,
              fun _ => List.mem_cons_of_mem _ (List.mem_cons_self _ _)⟩
          · intro _
            refine ⟨⟨nL, ?_, nR, ?_, ?_, ?_, ?_, ?_, ?_, ?_, ?_⟩, ?_⟩
            · rw [hn]
              exact List.mem_append_right _ (List.mem_cons_self _ _)
            · rw [hn]
              exact List.mem_append_right _ (List.mem_cons_of_mem _ (List.mem_cons_self _ _))
            · rw [hnLp]
            · rw [hnRp]
            · rw [hnLy, hnRy]
            · rw [hnLw]
            · rw [hnRw]
            · intro _
              exact hdx
            · intro hmale
              exact absurd hgA hmale
            · rw [hc, List.countP_append, hcnt0]
              have : spouseConnAB p q c = true := by
                simp [spouseConnAB, hct, hcf, hctt]
              simp [List.countP_cons, this]
          · intro hA
            exfalso
            apply hA
            rw [hpos]
            exact List.mem_cons_of_mem _ (List.mem_cons_self _ _)
        | female =>
          have hpceq : positionCouple people fpid st p cX cY g ic ip =
              positionPair fpid st q p
                (calculateNodeWidth p.name + calculateNodeWidth q.name + CONFIG.SPOUSE_GAP)
                cX cY g ic ip := by
            simp [positionCouple, hsp, hqpos, hgA]
          rw [hpceq]
          obtain ⟨nL, nR, c, hn, hc, hpos, hct, hcf, hctt, hnLp, hnRp, hnLy, hnRy, hnLw,
            hnRw, hdx⟩ :=
            positionPair_couple_est fpid st q p
              (calculateNodeWidth p.name + calculateNodeWidth q.name + CONFIG.SPOUSE_GAP)
                cX cY g ic ip (by omega) hqpos hAnp (Ne.symm hne)
          refine ⟨?_, ?_, ?_⟩
          · rw [hpos]
            exact ⟨fun _ => List.mem_cons_of_mem _ (List.mem_cons_self _ _),
              fun _ => List.mem_cons_self _ _⟩
          · intro _
            refine ⟨⟨nR, ?_, nL, ?_, ?_, ?_, ?_, ?_, ?_, ?_, ?_⟩, ?_⟩
            · rw [hn]
              exact List.mem_append_right _ (List.mem_cons_of_mem _ (List.mem_cons_self _ _))
            · rw [hn]
              exact List.mem_append_right _ (List.mem_cons_self _ _)
            · rw [hnRp]
            · rw [hnLp]
            · rw [hnLy, hnRy]
            · rw [hnRw]
            · rw [hnLw]
            · intro hmale
              exact absurd hmale (by rw [hgA]; intro h; cases h)
            · intro _
              rw [hdx]
              ring
            · rw [hc, List.countP_append, hcnt0]
              have : spouseConnAB p q c = true := by
                simp [spouseConnAB, hct, hcf, hctt]
              simp [List.countP_cons, this]
          · intro hA
            exfalso
            apply hA
            rw [hpos]
            exact List.mem_cons_self _ _
      · by_cases hpB : p.id = B.id
        · have hpe : p = B := lookupPerson_unique hlp hlB hpB
          subst hpe
          have hqe : q = A := by
            rw [hgsB] at hsp
            exact (Option.some.inj hsp).symm
          subst hqe
          obtain ⟨hiff, hposi, hnpos⟩ := hinv
          obtain ⟨hsafe, hcnt0⟩ := hnpos hqpos
          have hBnp : p.id ∉ st.positioned := fun hx => hqpos (hiff.mpr hx)
          cases hgB : p.gender with
          | male =>
            have hgAf : q.gender ≠ Gender.male :=
              fun h => hg (h.trans hgB.symm)
            have hpceq : positionCouple people fpid st p cX cY g ic ip =
                positionPair fpid st p q
                  (calculateNodeWidth p.name + calculateNodeWidth q.name + CONFIG.SPOUSE_GAP)
                  cX cY g ic ip := by
              simp [positionCouple, hsp, hqpos, hgB]
            rw [hpceq]
            obtain ⟨nL, nR, c, hn, hc, hpos, hct, hcf, hctt, hnLp, hnRp, hnLy, hnRy, hnLw,
              hnRw, hdx⟩ :=
              positionPair_couple_est fpid st p q
                (calculateNodeWidth p.name + calculateNodeWidth q.name + CONFIG.SPOUSE_GAP)
                  cX cY g ic ip rfl hBnp hqpos (Ne.symm hne)
            refine ⟨?_, ?_, ?_⟩
            · rw [hpos]
              exact ⟨fun _ => List.mem_cons_of_mem _ (List.mem_cons_self _ _),
                fun _ => List.mem_cons_self _ _⟩
            · intro _
              refine ⟨⟨nR, ?_, nL, ?_, ?_, ?_, ?_, ?_, ?_, ?_, ?_⟩, ?_⟩
              · rw [hn]
                exact List.mem_append_right _ (List.mem_cons_of_mem _ (List.mem_cons_self _ _))
              · rw [hn]
                exact List.mem_append_right _ (List.mem_cons_self _ _)
              · rw [hnRp]
              · rw [hnLp]
              · rw [hnLy, hnRy]
              · rw [hnRw]
              · rw [hnLw]
              · intro hmale
                exact absurd hmale hgAf
              · intro _
                rw [hdx]
                ring
              · rw [hc, List.countP_append, hcnt0]
                have : spouseConnAB q p c = true := by
                  simp [spouseConnAB, hct, hcf, hctt]
                simp [List.countP_cons, this]
            · intro hA
              exfalso
              apply hA
              rw [hpos]
              exact List.mem_cons_self _ _
          | female =>
            have hgAm : q.gender = Gender.male := by
              cases hgq : q.gender with
              | male => rfl
              | female => exact absurd (hgq.trans hgB.symm) hg
            have hpceq : positionCouple people fpid st p cX cY g ic ip =
                positionPair fpid st q p
                  (calculateNodeWidth p.name + calculateNodeWidth q.name + CONFIG.SPOUSE_GAP)
                  cX cY g ic ip := by
              simp [positionCouple, hsp, hqpos, hgB]
            rw [hpceq]
            obtain ⟨nL, nR, c, hn, hc, hpos, hct, hcf, hctt, hnLp, hnRp, hnLy, hnRy, hnLw,
              hnRw, hdx⟩ :=
              positionPair_couple_est fpid st q p
                (calculateNodeWidth p.name + calculateNodeWidth q.name + CONFIG.SPOUSE_GAP)
                  cX cY g ic ip (by omega) hqpos hBnp hne
            refine ⟨?_, ?_, ?_⟩
            · rw [hpos]
              exact ⟨fun _ => List.mem_cons_self _ _,
                fun _ => List.mem_cons_of_mem _ (List.mem_cons_self _ _)⟩
            · intro _
              refine ⟨⟨nL, ?_, nR, ?_, ?_, ?_, ?_, ?_, ?_, ?_, ?_⟩, ?_⟩
              · rw [hn]
                exact List.mem_append_right _ (List.mem_cons_self _ _)
              · rw [hn]
                exact List.mem_append_right _ (List.mem_cons_of_mem _ (List.mem_cons_self _ _))
              · rw [hnLp]
              · rw [hnRp]
              · rw [hnLy, hnRy]
              · rw [hnLw]
              · rw [hnRw]
              · intro _
                exact hdx
              · intro hnotmale
                exact absurd hgAm hnotmale
              · rw [hc, List.countP_append, hcnt0]
                have : spouseConnAB q p c = true := by
                  simp [spouseConnAB, hct, hcf, hctt]
                simp [List.countP_cons, this]
            · intro hA
              exfalso
              apply hA
              rw [hpos]
              exact List.mem_cons_of_mem _ (List.mem_cons_self _ _)
        · have hpmem : p ∈ people := lookupPerson_mem hlp
          have h3 := hthird p hpmem hpA hpB
          have hqA : q.id ≠ A.id := by
            intro he
            have hqe : q = A := lookupPerson_unique (getSpouse_lookup hsp) hlA he
            exact h3.1 (hqe ▸ hsp)
          have hqB : q.id ≠ B.id := by
            intro he
            have hqe : q = B := lookupPerson_unique (getSpouse_lookup hsp) hlB he
            exact h3.2 (hqe ▸ hsp)
          cases hgp : p.gender with
          | male =>
            have hpceq : positionCouple people fpid st p cX cY g ic ip =
                positionPair fpid st p q
                  (calculateNodeWidth p.name + calculateNodeWidth q.name + CONFIG.SPOUSE_GAP)
                  cX cY g ic ip := by
              simp [positionCouple, hsp, hqpos, hgp]
            rw [hpceq]
            exact positionPair_preserves_other A B fpid st p q _ cX cY g ic ip hpA hpB
              hqA hqB hinv
          | female =>
            have hpceq : positionCouple people fpid st p cX cY g ic ip =
                positionPair fpid st q p
                  (calculateNodeWidth p.name + calculateNodeWidth q.name + CONFIG.SPOUSE_GAP)
                  cX cY g ic ip := by
              simp [positionCouple, hsp, hqpos, hgp]
            rw [hpceq]
            exact positionPair_preserves_other A B fpid st q p _ cX cY g ic ip hqA hqB
              hpA hpB hinv

theorem pdFold_preserves_coupleInv (people : List Person) (fpid : String)
    (A B : Person)
    (hu : ∀ q ∈ people, lookupPerson people q.id = some q)
    (hgsA : getSpouse A people = some B)
    (hgsB : getSpouse B people = some A)
    (hne : A.id ≠ B.id)
    (hg : A.gender ≠ B.gender)
    (hthird : ∀ q ∈ people, q.id ≠ A.id → q.id ≠ B.id →
      getSpouse q people ≠ some A ∧ getSpouse q people ≠ some B)
    (p : Person) (cX y childY : ℚ) (g : Int) (r : Nat)
    (hrec : ∀ (st : LayoutState) (c : Person) (ccX ccY : ℚ) (gg : Int),
      coupleInv A B st →
      coupleInv A B (positionDescendants people fpid r st c ccX ccY gg)) :
    ∀ (l : List (Person × Nat)) (stc : LayoutState) (curX : ℚ),
      (∀ cw ∈ l, lookupPerson people cw.1.id = some cw.1) →
      coupleInv A B stc →
      coupleInv A B (pdFold people fpid p cX y childY g r l stc curX) := by
  intro l
  induction l with
  | nil =>
    intro stc curX _ hinv
    rw [pdFold_nil]
    exact hinv
  | cons cw t ihl =>
    obtain ⟨c, w⟩ := cw
    intro stc curX hlk hinv
    have hlc : lookupPerson people c.id = some c := hlk (c, w) (List.mem_cons_self _ _)
    rw [pdFold_cons]
    have hinv1 : coupleInv A B (positionCouple people fpid stc c
        (curX + (w : ℚ) / 2) childY (g + 1) true false).2 :=
      positionCouple_preserves_coupleInv people fpid A B hu hgsA hgsB hne hg hthird
        stc c (curX + (w : ℚ) / 2) childY (g + 1) true false hlc hinv
    apply ihl _ _ (fun cw h => hlk cw (List.mem_cons_of_mem _ h))
    apply hrec
    cases hfind : (positionCouple people fpid stc c (curX + (w : ℚ) / 2) childY (g + 1)
        true false).2.nodes.find? (fun n => n.person.id == c.id) with
    | none =>
      simpa [hfind] using hinv1
    | some childNode =>
      refine coupleInv_extend A B _ _ ⟨[], by simp [hfind], ?_⟩ ⟨[], by simp [hfind], ?_, ?_⟩
        ⟨[{ id := "parent-child-" ++ p.id ++ "-" ++ c.id
            type := ConnectionType.parentChild
            «from» := ⟨cX, y + (CONFIG.NODE_HEIGHT : ℚ) / 2⟩
            «to» := ⟨childNode.x, childY - (CONFIG.NODE_HEIGHT : ℚ) / 2⟩
            fromId := p.id
            toId := c.id }], by simp [hfind], ?_⟩ hinv1
      · exact fun n hn => absurd hn (List.not_mem_nil n)
      · simp
      · simp
      · intro cc hcc
        rcases List.mem_singleton.mp hcc with rfl
        simp [spouseConnAB]

theorem positionDescendants_preserves_coupleInv (people : List Person) (fpid : String)
    (A B : Person)
    (hu : ∀ q ∈ people, lookupPerson people q.id = some q)
    (hgsA : getSpouse A people = some B)
    (hgsB : getSpouse B people = some A)
    (hne : A.id ≠ B.id)
    (hg : A.gender ≠ B.gender)
    (hthird : ∀ q ∈ people, q.id ≠ A.id → q.id ≠ B.id →
      getSpouse q people ≠ some A ∧ getSpouse q people ≠ some B) :
    ∀ (r : Nat) (st : LayoutState) (c : Person) (ccX ccY : ℚ) (gg : Int),
      coupleInv A B st →
      coupleInv A B (positionDescendants people fpid r st c ccX ccY gg) := by
  intro r
  induction r with
  | zero =>
    intro st c ccX ccY gg hinv
    rw [positionDescendants_zero]
    exact hinv
  | succ r ih =>
    intro st c ccX ccY gg hinv
    rw [positionDescendants_succ_fold]
    by_cases hch : pdChildren people c st.positioned = []
    · rw [if_pos hch]
      exact hinv
    · rw [if_neg hch]
      apply pdFold_preserves_coupleInv people fpid A B hu hgsA hgsB hne hg hthird
        c ccX ccY _ gg r ih
      · intro cw hcw
        obtain ⟨hmem, _⟩ := mem_zip_map (pdAdjusted people r st.positioned)
          (pdChildren people c st.positioned) cw.1 cw.2 hcw
        exact (pdChildren_facts cw.1 hmem).1
      · exact hinv

theorem positionAncestors_preserves_coupleInv (people : List Person) (fpid : String)
    (A B : Person)
    (hu : ∀ q ∈ people, lookupPerson people q.id = some q)
    (hgsA : getSpouse A people = some B)
    (hgsB : getSpouse B people = some A)
    (hne : A.id ≠ B.id)
    (hg : A.gender ≠ B.gender)
    (hthird : ∀ q ∈ people, q.id ≠ A.id → q.id ≠ B.id →
      getSpouse q people ≠ some A ∧ getSpouse q people ≠ some B) :
    ∀ (r : Nat) (st : LayoutState) (pid : String) (cX y : ℚ) (g : Int),
      coupleInv A B st →
      coupleInv A B (positionAncestors people fpid r st pid cX y g) := by
  intro r
  induction r with
  | zero =>
    intro st pid cX y g hinv
    rw [positionAncestors_zero]
    exact hinv
  | succ r ih =>
    intro st pid cX y g hinv
    rw [positionAncestors_succ]
    cases hpar : (findParents pid people).filter
        (fun p => !(decide (p.id ∈ st.positioned))) with
    | nil =>
      exact hinv
    | cons parent rest =>
      have hparmem : parent ∈ people := by
        have : parent ∈ (findParents pid people).filter
            (fun p => !(decide (p.id ∈ st.positioned))) := by
          rw [hpar]
          exact List.mem_cons_self _ _
        exact findParents_mem parent (List.mem_filter.mp this).1
      have hlpar : lookupPerson people parent.id = some parent := hu parent hparmem
      have hinv1 : coupleInv A B (positionCouple people fpid st parent cX
          (y - (CONFIG.VERTICAL_GAP : ℚ) - (CONFIG.NODE_HEIGHT : ℚ)) (g - 1) false true).2 :=
        positionCouple_preserves_coupleInv people fpid A B hu hgsA hgsB hne hg hthird
          st parent cX (y - (CONFIG.VERTICAL_GAP : ℚ) - (CONFIG.NODE_HEIGHT : ℚ)) (g - 1)
          false true hlpar hinv
      apply ih
      cases hfind : (positionCouple people fpid st parent cX
          (y - (CONFIG.VERTICAL_GAP : ℚ) - (CONFIG.NODE_HEIGHT : ℚ)) (g - 1) false
          true).2.nodes.find? (fun n => n.person.id == pid) with
      | none =>
        simpa [hfind] using hinv1
      | some childNode =>
        refine coupleInv_extend A B _ _ ⟨[], by simp [hfind], ?_⟩
          ⟨[], by simp [hfind], ?_, ?_⟩
          ⟨[{ id := "parent-child-" ++ parent.id ++ "-" ++ pid
              type := ConnectionType.parentChild
              «from» := ⟨(positionCouple people fpid st parent cX
                (y - (CONFIG.VERTICAL_GAP : ℚ) - (CONFIG.NODE_HEIGHT : ℚ)) (g - 1) false
                true).1.centerX,
                y - (CONFIG.VERTICAL_GAP : ℚ) - (CONFIG.NODE_HEIGHT : ℚ) +
                  (CONFIG.NODE_HEIGHT : ℚ) / 2⟩
              «to» := ⟨childNode.x, y - (CONFIG.NODE_HEIGHT : ℚ) / 2⟩
              fromId := parent.id
              toId := pid }], by simp [hfind], ?_⟩ hinv1
        · exact fun n hn => absurd hn (List.not_mem_nil n)
        · simp
        · simp
        · intro cc hcc
          rcases List.mem_singleton.mp hcc with rfl
          simp [spouseConnAB]

/-- C6 (amended): spouse symmetry display — under a well-keyed people list
(each entry found under its own id), for mutually-resolving spouses `A` and
`B` of distinct ids and distinct genders that no third person's `spouseId`
resolves to, if either of them appears in the `computeLayout` result then
both appear: at equal `y`, with the male member on the left, at horizontal
separation `widthA/2 + SPOUSE_GAP + widthB/2`, joined by exactly one
connection of type `spouse`.  (The frozen wording, which lacks the
well-keyedness and no-third-party-reference hypotheses, is refuted on the
asymmetric three-person tree below.) -/
theorem claim_C6_spouse_symmetry (fpid : String) (t : FamilyTree) (A B : Person)
    (hu : ∀ q ∈ t.people, lookupPerson t.people q.id = some q)
    (hgsA : getSpouse A t.people = some B)
    (hgsB : getSpouse B t.people = some A)
    (hne : A.id ≠ B.id)
    (hg : A.gender ≠ B.gender)
    (hthird : ∀ q ∈ t.people, q.id ≠ A.id → q.id ≠ B.id →
      getSpouse q t.people ≠ some A ∧ getSpouse q t.people ≠ some B)
    (happ : ∃ n ∈ (computeLayout fpid t).nodes,
      n.person.id = A.id ∨ n.person.id = B.id) :
    (∃ nA ∈ (computeLayout fpid t).nodes, ∃ nB ∈ (computeLayout fpid t).nodes,
      nA.person.id = A.id ∧ nB.person.id = B.id ∧ nA.y = nB.y ∧
      nA.width = calculateNodeWidth A.name ∧ nB.width = calculateNodeWidth B.name ∧
      (A.gender = Gender.male →
        nB.x - nA.x = (calculateNodeWidth A.name : ℚ) / 2 + (CONFIG.SPOUSE_GAP : ℚ) +
          (calculateNodeWidth B.name : ℚ) / 2) ∧
      (A.gender ≠ Gender.male →
        nA.x - nB.x = (calculateNodeWidth A.name : ℚ) / 2 + (CONFIG.SPOUSE_GAP : ℚ) +
          (calculateNodeWidth B.name : ℚ) / 2)) ∧
    (computeLayout fpid t).connections.countP (spouseConnAB A B) = 1 := by
  cases hl : lookupPerson t.people fpid with
  | none =>
    exfalso
    obtain ⟨n, hn, _⟩ := happ
    simp only [computeLayout, hl] at hn
    exact absurd hn (List.not_mem_nil n)
  | some fp =>
    have hinv0 : coupleInv A B ⟨[], [], []⟩ := by
      refine ⟨by simp, ?_, ?_⟩
      · intro h
        exact absurd h (List.not_mem_nil _)
      · intro _
        exact ⟨fun n hn => absurd hn (List.not_mem_nil n), rfl⟩
    have hlfp : lookupPerson t.people fp.id = some fp := lookupPerson_self hl
    have hinv1 := positionCouple_preserves_coupleInv t.people fpid A B hu hgsA hgsB hne
      hg hthird ⟨[], [], []⟩ fp 0 0 0 false false hlfp hinv0
    have hinv2 := positionDescendants_preserves_coupleInv t.people fpid A B hu hgsA hgsB
      hne hg hthird CONFIG.MAX_LAYERS_DOWN
      (positionCouple t.people fpid ⟨[], [], []⟩ fp 0 0 0 false false).2 fp
      (positionCouple t.people fpid ⟨[], [], []⟩ fp 0 0 0 false false).1.centerX 0 0 hinv1
    have hinv3 := positionAncestors_preserves_coupleInv t.people fpid A B hu hgsA hgsB
      hne hg hthird CONFIG.MAX_LAYERS_UP
      (positionDescendants t.people fpid CONFIG.MAX_LAYERS_DOWN
        (positionCouple t.people fpid ⟨[], [], []⟩ fp 0 0 0 false false).2 fp
        (positionCouple t.people fpid ⟨[], [], []⟩ fp 0 0 0 false false).1.centerX 0 0)
      fpid (positionCouple t.people fpid ⟨[], [], []⟩ fp 0 0 0 false false).1.centerX
      0 0 hinv2
    simp only [computeLayout, hl] at happ ⊢
    obtain ⟨hiff, hposi, hnpos⟩ := hinv3
    by_cases hA : A.id ∈ (positionAncestors t.people fpid CONFIG.MAX_LAYERS_UP
        (positionDescendants t.people fpid CONFIG.MAX_LAYERS_DOWN
          (positionCouple t.people fpid ⟨[], [], []⟩ fp 0 0 0 false false).2 fp
          (positionCouple t.people fpid ⟨[], [], []⟩ fp 0 0 0 false false).1.centerX 0 0)
        fpid (positionCouple t.people fpid ⟨[], [], []⟩ fp 0 0 0 false false).1.centerX
        0 0).positioned
    · exact hposi hA
    · exfalso
      obtain ⟨n, hn, hid⟩ := happ
      obtain ⟨hsafe, _⟩ := hnpos hA
      rcases hid with h1 | h2
      · exact (hsafe n hn).1 h1
      · exact (hsafe n hn).2 h2

/-- Witness for C6 (amended) at the two-person couple tree focused on the
male partner: the hypotheses hold and both partners are laid out
symmetrically with one spouse connection. -/
theorem claim_C6_spouse_symmetry_witness :
    getSpouse coupleA coupleTree.people = some coupleB ∧
    getSpouse coupleB coupleTree.people = some coupleA ∧
    (∃ n ∈ (computeLayout "a" coupleTree).nodes,
      n.person.id = coupleA.id ∨ n.person.id = coupleB.id) ∧
    ((∃ nA ∈ (computeLayout "a" coupleTree).nodes,
      ∃ nB ∈ (computeLayout "a" coupleTree).nodes,
      nA.person.id = coupleA.id ∧ nB.person.id = coupleB.id ∧ nA.y = nB.y ∧
      nA.width = calculateNodeWidth coupleA.name ∧
      nB.width = calculateNodeWidth coupleB.name ∧
      (coupleA.gender = Gender.male →
        nB.x - nA.x = (calculateNodeWidth coupleA.name : ℚ) / 2 +
          (CONFIG.SPOUSE_GAP : ℚ) + (calculateNodeWidth coupleB.name : ℚ) / 2) ∧
      (coupleA.gender ≠ Gender.male →
        nA.x - nB.x = (calculateNodeWidth coupleA.name : ℚ) / 2 +
          (CONFIG.SPOUSE_GAP : ℚ) + (calculateNodeWidth coupleB.name : ℚ) / 2)) ∧
    (computeLayout "a" coupleTree).connections.countP
      (spouseConnAB coupleA coupleB) = 1) :=
  ⟨by decide, by decide, by decide,
   claim_C6_spouse_symmetry "a" coupleTree coupleA coupleB (by decide) (by decide)
     (by decide) (by decide) (by decide) (by decide) (by decide)⟩

/-- C6 (counterexample to the frozen wording): in `asymTree`, `A` and `B` are
mutual spouses and `A` appears in the layout focused on `"C"` (who also
references `A` as spouse), but `B` does not appear at all. -/
theorem claim_C6_counterexample :
    asymA.spouseId = some asymB.id ∧ asymB.spouseId = some asymA.id ∧
    (∃ n ∈ (computeLayout "C" asymTree).nodes, n.person.id = asymA.id) ∧
    ¬(∃ n ∈ (computeLayout "C" asymTree).nodes, n.person.id = asymB.id) := by
  decide

end FamilyTreeLayout
